import Mathlib

/-!
Shallow embedding of the Rift fraud-detection pipeline
(`src/python-model/graph/*.py`, `src/python-model/utils/*.py`) and proofs
about the claims of its specification.

Modelling conventions:
* Account identifiers are embedded as natural numbers; the linear order on
  `Nat` stands for the lexicographic order on account-id strings (the spec
  itself suggests interning accounts as small integers).
* Timestamps are integers (seconds since an epoch), matching the arithmetic
  the source performs on `datetime` values (`total_seconds`, `timedelta`).
* Monetary amounts and scores are exact rationals `ℚ`; every comparison the
  source makes on floats is order-equivalent to the exact rational
  comparison at the values relevant to the claims.
* Python `dict`s (insertion-ordered) are embedded as association lists kept
  in insertion order; Python `set`s are embedded as duplicate-free lists in
  insertion order.  Where the Python `set` iteration order is genuinely
  implementation-defined (hash-dependent), the embedding takes the order as
  an explicit parameter.
-/

namespace Rift

abbrev Node := Nat

/-- A single transaction edge (`models/graph_data.py`, `Edge`). -/
structure Edge where
  transaction_id : Nat
  sender_id : Node
  receiver_id : Node
  amount : ℚ
  timestamp : ℤ
deriving DecidableEq, Repr

/-- Per-account statistics (`models/graph_data.py`, `NodeStats`). -/
structure NodeStats where
  total_sent : ℚ := 0
  total_received : ℚ := 0
  out_degree : Nat := 0
  in_degree : Nat := 0
  unique_receivers : List Node := []
  unique_senders : List Node := []
  transaction_count : Nat := 0
  first_tx : Option ℤ := none
  last_tx : Option ℤ := none
deriving DecidableEq, Repr

/-- The shared graph structure (`models/graph_data.py`, `GraphData`). -/
structure GraphData where
  adjacency_list : List (Node × List Edge) := []
  reverse_adj : List (Node × List Edge) := []
  node_stats : List (Node × NodeStats) := []
  node_set : List Node := []
  edge_index : List ((Node × Node) × List Edge) := []
deriving DecidableEq, Repr

section AssocList

variable {α : Type _} {β : Type _} [DecidableEq α]

/-- First-occurrence lookup in an association list (Python `dict` read). -/
def alookup : List (α × β) → α → Option β
  | [], _ => none
  | p :: ps, k => if p.1 = k then some p.2 else alookup ps k

/-- Update the binding of `k` through `f` (starting from `d` if absent),
keeping insertion order: the Python `if k not in d: d[k] = init` /
`d[k] = f(d[k])` idiom. -/
def upsert : List (α × β) → α → (β → β) → β → List (α × β)
  | [], k, f, d => [(k, f d)]
  | p :: ps, k, f, d => if p.1 = k then (k, f p.2) :: ps else p :: upsert ps k f d

@[simp] theorem alookup_nil (k : α) : alookup ([] : List (α × β)) k = none := rfl

theorem alookup_upsert_self (l : List (α × β)) (k : α) (f : β → β) (d : β) :
    alookup (upsert l k f d) k = some (f ((alookup l k).getD d)) := by
  induction l with
  | nil => simp [alookup, upsert]
  | cons p ps ih =>
    by_cases h : p.1 = k
    · simp [alookup, upsert, h]
    · simp [alookup, upsert, h, ih]

theorem alookup_upsert_ne (l : List (α × β)) (k k' : α) (f : β → β) (d : β)
    (h : k' ≠ k) : alookup (upsert l k f d) k' = alookup l k' := by
  have hk : ¬ (k = k') := fun hh => h hh.symm
  induction l with
  | nil => simp [alookup, upsert, hk]
  | cons p ps ih =>
    by_cases hp : p.1 = k
    · have hp' : ¬ (p.1 = k') := by
        rw [hp]; exact hk
      simp [alookup, upsert, hp, hp', hk]
    · by_cases hp' : p.1 = k'
      · simp [alookup, upsert, hp, hp', hk, h]
      · simp [alookup, upsert, hp, hp', ih]

end AssocList

/-- Add `x` to an insertion-ordered duplicate-free list (Python `set.add`). -/
def sadd {α : Type _} [DecidableEq α] (l : List α) (x : α) : List α :=
  if x ∈ l then l else l ++ [x]

@[simp] theorem mem_sadd {α : Type _} [DecidableEq α] (l : List α) (x a : α) :
    a ∈ sadd l x ↔ a ∈ l ∨ a = x := by
  unfold sadd
  by_cases h : x ∈ l
  · simp only [if_pos h]
    constructor
    · exact Or.inl
    · rintro (h' | rfl) <;> [exact h'; exact h]
  · simp [if_neg h]

section StableSort

variable {α : Type _}

/-- Stable insertion of `x` into a list sorted by the strict comparison
`lt`: `x` goes in front of the first element not strictly below it.  With
`lt` the strict key comparison this reproduces the stable behaviour of
Python `sorted` / `list.sort`. -/
def sinsert (lt : α → α → Bool) (x : α) : List α → List α
  | [] => [x]
  | y :: ys => if lt y x then y :: sinsert lt x ys else x :: y :: ys

/-- Stable insertion sort (ascending w.r.t. the strict comparison `lt`),
embedding Python's stable `sorted`. -/
def ssort (lt : α → α → Bool) (l : List α) : List α :=
  l.foldr (sinsert lt) []

theorem sinsert_perm (lt : α → α → Bool) (x : α) (l : List α) :
    List.Perm (sinsert lt x l) (x :: l) := by
  induction l with
  | nil => simp [sinsert]
  | cons y ys ih =>
    unfold sinsert
    by_cases h : lt y x
    · simp only [if_pos h]
      exact ((ih.cons y).trans (List.Perm.swap x y ys))
    · simp [if_neg h]

theorem ssort_perm (lt : α → α → Bool) (l : List α) :
    List.Perm (ssort lt l) l := by
  induction l with
  | nil => simp [ssort]
  | cons x xs ih =>
    unfold ssort
    simp only [List.foldr_cons]
    exact (sinsert_perm lt x _).trans (ih.cons x)

theorem mem_ssort (lt : α → α → Bool) (l : List α) (a : α) :
    a ∈ ssort lt l ↔ a ∈ l :=
  (ssort_perm lt l).mem_iff

theorem length_ssort (lt : α → α → Bool) (l : List α) :
    (ssort lt l).length = l.length :=
  (ssort_perm lt l).length_eq

end StableSort

/-- Round a rational to the nearest integer, ties to the even integer:
Python 3 `round` (banker's rounding). -/
def pyround (x : ℚ) : ℤ :=
  if x - ⌊x⌋ < 1/2 then ⌊x⌋
  else if 1/2 < x - ⌊x⌋ then ⌊x⌋ + 1
  else if Even ⌊x⌋ then ⌊x⌋ else ⌊x⌋ + 1

/-- Python `round(x, 2)`: round to two decimal places. -/
def round2 (x : ℚ) : ℚ := (pyround (x * 100) : ℚ) / 100

theorem pyround_floor_le (x : ℚ) : ⌊x⌋ ≤ pyround x := by
  unfold pyround
  split_ifs <;> omega

theorem pyround_le_ceil (x : ℚ) : pyround x ≤ ⌈x⌉ := by
  by_cases hr : x - ⌊x⌋ < 1/2
  · simp only [pyround, if_pos hr]
    exact Int.floor_le_ceil x
  · have hx : (⌊x⌋ : ℚ) < x := by
      rcases lt_or_eq_of_le (Int.floor_le x) with h | h
      · exact h
      · exfalso
        apply hr
        rw [← h]
        norm_num
    have hlt : ⌊x⌋ < ⌈x⌉ := by
      exact_mod_cast lt_of_lt_of_le hx (Int.le_ceil x)
    simp only [pyround, if_neg hr]
    split_ifs <;> omega

/-- The function `round2` stays inside any interval with integer endpoints. -/
theorem round2_mem_Icc (a b : ℤ) (x : ℚ) (h1 : (a : ℚ) ≤ x) (h2 : x ≤ b) :
    (a : ℚ) ≤ round2 x ∧ round2 x ≤ b := by
  unfold round2
  have hfl : (100 * a : ℤ) ≤ ⌊x * 100⌋ := by
    rw [Int.le_floor]
    push_cast
    nlinarith
  have hcl : ⌈x * 100⌉ ≤ (100 * b : ℤ) := by
    rw [Int.ceil_le]
    push_cast
    nlinarith
  have hl : (100 * a : ℤ) ≤ pyround (x * 100) :=
    le_trans hfl (pyround_floor_le _)
  have hr : pyround (x * 100) ≤ (100 * b : ℤ) :=
    le_trans (pyround_le_ceil _) hcl
  constructor
  · have hcast : ((100 * a : ℤ) : ℚ) ≤ (pyround (x * 100) : ℚ) := by exact_mod_cast hl
    have hdiv : ((100 * a : ℤ) : ℚ) / 100 ≤ (pyround (x * 100) : ℚ) / 100 := by gcongr
    calc (a : ℚ) = ((100 * a : ℤ) : ℚ) / 100 := by push_cast; ring
    _ ≤ (pyround (x * 100) : ℚ) / 100 := hdiv
  · have hcast : (pyround (x * 100) : ℚ) ≤ ((100 * b : ℤ) : ℚ) := by exact_mod_cast hr
    have hdiv : (pyround (x * 100) : ℚ) / 100 ≤ ((100 * b : ℤ) : ℚ) / 100 := by gcongr
    calc (pyround (x * 100) : ℚ) / 100 ≤ ((100 * b : ℤ) : ℚ) / 100 := hdiv
    _ = (b : ℚ) := by push_cast; ring

/-! ### Graph builder (`graph/builder.py`) -/

/-- Sender-side half of `_update_node_stats`. -/
def update_sender_stats (e : Edge) (st : NodeStats) : NodeStats :=
  { st with
    total_sent := st.total_sent + e.amount
    out_degree := st.out_degree + 1
    unique_receivers := sadd st.unique_receivers e.receiver_id
    transaction_count := st.transaction_count + 1
    first_tx := some (match st.first_tx with
      | none => e.timestamp
      | some t => if e.timestamp < t then e.timestamp else t)
    last_tx := some (match st.last_tx with
      | none => e.timestamp
      | some t => if t < e.timestamp then e.timestamp else t) }

/-- Receiver-side half of `_update_node_stats`. -/
def update_receiver_stats (e : Edge) (st : NodeStats) : NodeStats :=
  { st with
    total_received := st.total_received + e.amount
    in_degree := st.in_degree + 1
    unique_senders := sadd st.unique_senders e.sender_id
    transaction_count := st.transaction_count + 1
    first_tx := some (match st.first_tx with
      | none => e.timestamp
      | some t => if e.timestamp < t then e.timestamp else t)
    last_tx := some (match st.last_tx with
      | none => e.timestamp
      | some t => if t < e.timestamp then e.timestamp else t) }

/-- One iteration of the edge loop in `build_graph_from_csv`. -/
def add_edge (g : GraphData) (e : Edge) : GraphData :=
  { adjacency_list := upsert g.adjacency_list e.sender_id (fun l => l ++ [e]) []
    reverse_adj := upsert g.reverse_adj e.receiver_id (fun l => l ++ [e]) []
    edge_index := upsert g.edge_index (e.sender_id, e.receiver_id) (fun l => l ++ [e]) []
    node_set := sadd (sadd g.node_set e.sender_id) e.receiver_id
    node_stats :=
      upsert (upsert g.node_stats e.sender_id (update_sender_stats e) {})
        e.receiver_id (update_receiver_stats e) {} }

/-- Embeds `build_graph_from_csv` after CSV parsing: a single linear pass over the
validated edge list. -/
def build_graph (txs : List Edge) : GraphData :=
  txs.foldl add_edge {}

/-- Embeds `graph.adjacency_list.get(node, [])`. -/
def adj (g : GraphData) (n : Node) : List Edge :=
  (alookup g.adjacency_list n).getD []

/-- Embeds `graph.reverse_adj.get(node, [])`. -/
def radj (g : GraphData) (n : Node) : List Edge :=
  (alookup g.reverse_adj n).getD []

/-- Embeds `graph.node_stats.get(node)`. -/
def statsOf (g : GraphData) (n : Node) : Option NodeStats :=
  alookup g.node_stats n

/-- Embeds `graph.edge_index.get((src, dst), [])`. -/
def eidx (g : GraphData) (p : Node × Node) : List Edge :=
  (alookup g.edge_index p).getD []

/-! ### Smurfing detector (`graph/smurfing_detector.py`) -/

def SMURFING_THRESHOLD : ℚ := 10000

def TIME_WINDOW_HOURS : ℤ := 72

/-- Embeds `sorted(edges, key=lambda e: e.timestamp)` (stable). -/
def sort_by_timestamp (edges : List Edge) : List Edge :=
  ssort (fun a b => decide (a.timestamp < b.timestamp)) edges

/-- The window `[t_i, t_i + TIME_WINDOW_HOURS]` of `_check_smurfing_pattern`:
all edges of the sorted list at index `≥ i` with timestamp at most
`sorted[i].timestamp + 72h`. -/
def window_txs (sorted_edges : List Edge) (i : Nat) : List Edge :=
  match sorted_edges.drop i with
  | [] => []
  | e0 :: rest =>
    (e0 :: rest).filter (fun e =>
      decide (e.timestamp ≤ e0.timestamp + TIME_WINDOW_HOURS * 3600))

/-- The body of the window test in `_check_smurfing_pattern`: at least five
transactions in the window, at least 80% of them below the threshold
(`below_threshold >= len(window_txs) * 0.8`). -/
def window_hit (sorted_edges : List Edge) (i : Nat) : Bool :=
  let w := window_txs sorted_edges i
  decide (5 ≤ w.length) &&
    decide (((w.countP (fun e => decide (e.amount < SMURFING_THRESHOLD))) : ℚ) ≥
      (w.length : ℚ) * 0.8)

/-- Embeds `_check_smurfing_pattern`: scan every window start index, succeed on the
first hit. -/
def check_smurfing_pattern (edges : List Edge) : Bool :=
  if edges.isEmpty then false
  else
    let sorted_edges := sort_by_timestamp edges
    (List.range sorted_edges.length).any (fun i => window_hit sorted_edges i)

/-- The fan-out test of `detect_smurfing`: `stats.out_degree >= 5` and
`_check_smurfing_pattern(outgoing)`. -/
def smurf_out_pred (g : GraphData) (n : Node) (st : NodeStats) : Bool :=
  decide (5 ≤ st.out_degree) && check_smurfing_pattern (adj g n)

/-- The fan-in test of `detect_smurfing`. -/
def smurf_in_pred (g : GraphData) (n : Node) (st : NodeStats) : Bool :=
  decide (5 ≤ st.in_degree) && check_smurfing_pattern (radj g n)

/-- Embeds `detect_smurfing`: fan-out pass then fan-in pass over `node_stats`,
collecting flagged accounts into one set. -/
def detect_smurfing (g : GraphData) : List Node :=
  let flagged := g.node_stats.foldl
    (fun acc p => if smurf_out_pred g p.1 p.2 then sadd acc p.1 else acc) []
  g.node_stats.foldl
    (fun acc p => if smurf_in_pred g p.1 p.2 then sadd acc p.1 else acc) flagged

/-! ### Cycle detector (`graph/cycle_detector.py`) -/

/-- Mutable state of `_tarjan_scc`. -/
structure TarjanSt where
  index_counter : Nat := 0
  stack : List Node := []
  on_stack : List Node := []
  node_index : List (Node × Nat) := []
  lowlink : List (Node × Nat) := []
  result : List (List Node) := []
deriving Repr

/-- Write a value into an association list (Python `d[k] = v`). -/
def aset {α β : Type _} [DecidableEq α] (l : List (α × β)) (k : α) (v : β) :
    List (α × β) :=
  upsert l k (fun _ => v) v

/-- Read a numeric association list entry, defaulting to 0 (the default is
never consulted on the paths the source actually takes). -/
def aget {α : Type _} [DecidableEq α] (l : List (α × Nat)) (k : α) : Nat :=
  (alookup l k).getD 0

/-- Pop the Tarjan stack (given top-first) down to and including `v`;
returns the popped component in pop order and the part below `v`. -/
def pop_rev (v : Node) : List Node → List Node × List Node
  | [] => ([], [])
  | w :: ws =>
    if w = v then ([w], ws)
    else
      let (c, s) := pop_rev v ws
      (w :: c, s)

/-- Pop the Tarjan stack down to and including `v` (`while True: w =
stack.pop() ...`).  The stack is kept with its top at the end, as in the
Python list. -/
def pop_component (v : Node) (stack : List Node) : List Node × List Node :=
  let (c, s) := pop_rev v stack.reverse
  (c, s.reverse)

/-- One iteration of the edge loop of `strongconnect`; `visit` is the
recursive call into `strongconnect` at the remaining call-stack budget. -/
def sc_edge_step (v : Node) (visit : Node → TarjanSt → TarjanSt)
    (st : TarjanSt) (e : Edge) : TarjanSt :=
  let w := e.receiver_id
  if (alookup st.node_index w).isNone then
    let st' := visit w st
    { st' with
      lowlink := aset st'.lowlink v
        (min (aget st'.lowlink v) (aget st'.lowlink w)) }
  else if w ∈ st.on_stack then
    { st with
      lowlink := aset st.lowlink v
        (min (aget st.lowlink v) (aget st.node_index w)) }
  else st

/-- Embeds `strongconnect` of `_tarjan_scc`, with explicit fuel standing for the
call stack (the fuel passed by `tarjan_scc` always suffices). -/
def strongconnect (adjf : Node → List Edge) :
    Nat → Node → TarjanSt → TarjanSt
  | 0, _, st => st
  | fuel + 1, v, st =>
    let st1 : TarjanSt :=
      { st with
        node_index := aset st.node_index v st.index_counter
        lowlink := aset st.lowlink v st.index_counter
        index_counter := st.index_counter + 1
        stack := st.stack ++ [v]
        on_stack := sadd st.on_stack v }
    let st2 := (adjf v).foldl
      (sc_edge_step v (fun w s => strongconnect adjf fuel w s)) st1
    if aget st2.lowlink v = aget st2.node_index v then
      let (component, rest) := pop_component v st2.stack
      { st2 with
        stack := rest
        on_stack := component.foldl (fun os w => os.erase w) st2.on_stack
        result := st2.result ++ [component] }
    else st2

/-- Embeds `_tarjan_scc`: iterate the adjacency keys in insertion order.  The fuel
bounds the recursion depth; any value at least the number of distinct nodes
reachable from the keys makes the embedding agree with the unbounded Python
recursion. -/
def tarjan_scc (adjl : List (Node × List Edge)) : List (List Node) :=
  let adjf := fun n => (alookup adjl n).getD []
  let fuel := adjl.length + adjl.foldl (fun n p => n + p.2.length) 0 + 1
  (adjl.map Prod.fst).foldl
    (fun st v =>
      if (alookup st.node_index v).isNone then strongconnect adjf fuel v st
      else st)
    {} |>.result

/-- Mutable state of the cycle-enumerating DFS in `_find_cycles_in_scc`. -/
structure DfsSt where
  cycles : List (List Node)
  visited : List Node
  path : List Node
deriving Repr

/-- One iteration of the edge loop of the inner `dfs` of
`_find_cycles_in_scc`.  The Boolean part of the state is `true` once the
loop has taken the early `return` that follows the cycle list reaching
`max_cycles`; from then on the remaining edges are not inspected.  `child`
is the recursive call into `dfs` one level deeper. -/
def dfs_edge_step (sccL : List Node) (start : Node)
    (min_len max_cycles : Nat) (depth : Nat)
    (child : Node → DfsSt → DfsSt) (p : DfsSt × Bool) (e : Edge) :
    DfsSt × Bool :=
  if p.2 then p
  else
    let st := p.1
    let nb := e.receiver_id
    if nb ∉ sccL then p
    else if nb = start ∧ min_len ≤ depth then
      let st' : DfsSt := { st with cycles := st.cycles ++ [st.path] }
      if max_cycles ≤ st'.cycles.length then (st', true) else (st', false)
    else if nb ∈ st.visited then p
    else (child nb st, false)

/-- The inner `dfs` of `_find_cycles_in_scc`.  When the edge loop ends in
the early `return` (Boolean `true`) the *pop* of `path`/`visited` is
skipped, exactly as in the source. -/
def dfs_visit (adjf : Node → List Edge) (sccL : List Node) (start : Node)
    (min_len max_len max_cycles : Nat) :
    Nat → Node → Nat → DfsSt → DfsSt
  | 0, _, _, st => st
  | fuel + 1, node, depth, st =>
    if max_cycles ≤ st.cycles.length then st
    else if max_len < depth then st
    else
      let st1 : DfsSt :=
        { st with path := st.path ++ [node], visited := sadd st.visited node }
      let q := (adjf node).foldl
        (dfs_edge_step sccL start min_len max_cycles depth
          (fun nb s =>
            dfs_visit adjf sccL start min_len max_len max_cycles fuel
              nb (depth + 1) s))
        (st1, false)
      if q.2 then q.1
      else { q.1 with path := q.1.path.dropLast, visited := q.1.visited.erase node }

/-- The start-node loop of `_find_cycles_in_scc`. -/
def starts_loop (adjf : Node → List Edge) (sccL : List Node)
    (min_len max_len max_cycles : Nat) :
    List Node → List (List Node) → List (List Node)
  | [], cycles => cycles
  | s :: rest, cycles =>
    if max_cycles ≤ cycles.length then cycles
    else
      let st := dfs_visit adjf sccL s min_len max_len max_cycles
        (max_len + 1) s 1 ⟨cycles, [], []⟩
      starts_loop adjf sccL min_len max_len max_cycles rest st.cycles

/-- Embeds `_find_cycles_in_scc`. -/
def find_cycles_in_scc (scc : List Node) (adjf : Node → List Edge)
    (min_len max_len max_cycles : Nat) : List (List Node) :=
  let scc_list0 := ssort (fun a b => decide (a < b)) scc
  let scc_list := if 50 < scc.length then scc_list0.take 50 else scc_list0
  starts_loop adjf scc min_len max_len max_cycles scc_list []

/-- Embeds `_canonicalize`: rotate the cycle so its smallest element is first. -/
def canonicalize (cycle : List Node) : List Node :=
  let m := (cycle.min?).getD 0
  let i := cycle.indexOf m
  cycle.drop i ++ cycle.take i

/-- All edges along consecutive directed pairs of the cycle, in the order
`_cycle_risk_score` and `detect_cycles` traverse them. -/
def cycle_pair_edges (cycle : List Node) (g : GraphData) : List Edge :=
  (List.range cycle.length).foldl
    (fun acc i =>
      acc ++ eidx g (cycle.getD i 0, cycle.getD ((i + 1) % cycle.length) 0))
    []

/-- Embeds `_cycle_risk_score`. -/
def cycle_risk_score (cycle : List Node) (g : GraphData) : ℚ :=
  let amounts := (cycle_pair_edges cycle g).map (fun e => e.amount)
  let tx_count := (cycle_pair_edges cycle g).length
  let clustering : ℚ :=
    if amounts.length ≠ 0 then
      let avg := amounts.sum / (amounts.length : ℚ)
      if 0 < avg ∧
          ((amounts.map (fun a => (a - avg) ^ 2)).sum /
            ((amounts.length : ℚ) * avg ^ 2)) < 1/10 then 20 else 0
    else 0
  let volume : ℚ := if cycle.length * 2 < tx_count then 15 else 0
  let longcyc : ℚ := if 4 ≤ cycle.length then 10 else 0
  min (50 + clustering + volume + longcyc) 100

/-- A detected fraud ring, as the dict built by `detect_cycles`. -/
structure Ring where
  members : List Node
  total_flow : ℚ
  transaction_count : Nat
  risk_score : ℚ
  cycle_length : Nat
deriving DecidableEq, Repr, Inhabited

/-- The ring record `detect_cycles` appends for one deduplicated cycle. -/
def ring_of (g : GraphData) (cycle : List Node) : Ring :=
  { members := cycle
    total_flow := round2 ((cycle_pair_edges cycle g).map (fun e => e.amount)).sum
    transaction_count := (cycle_pair_edges cycle g).length
    risk_score := round2 (cycle_risk_score cycle g)
    cycle_length := cycle.length }

/-- The inner raw-cycle loop of `detect_cycles` (dedup by canonical form,
stop at `max_results`). -/
def raw_loop (g : GraphData) (max_results : Nat) :
    List (List Node) → List (List Node) → List Ring →
      List (List Node) × List Ring
  | [], seen, results => (seen, results)
  | c :: cs, seen, results =>
    if max_results ≤ results.length then (seen, results)
    else
      let canon := canonicalize c
      if canon ∈ seen then raw_loop g max_results cs seen results
      else raw_loop g max_results cs (seen ++ [canon]) (results ++ [ring_of g c])

/-- The outer SCC loop of `detect_cycles`. -/
def sccs_loop (g : GraphData) (max_results : Nat) :
    List (List Node) → List (List Node) → List Ring → List Ring
  | [], _, results => results
  | s :: ss, seen, results =>
    if max_results ≤ results.length then results
    else
      let adjf := fun n => adj g n
      let (seen', results') :=
        raw_loop g max_results (find_cycles_in_scc s adjf 3 5 100) seen results
      sccs_loop g max_results ss seen' results'

/-- Embeds `detect_cycles`: SCCs of size ≥ 2, smallest first, at most 20; enumerate,
dedup and score cycles; sort by risk score descending (stable) and truncate
to `max_results`. -/
def detect_cycles (g : GraphData) (max_results : Nat) : List Ring :=
  let sccs0 := tarjan_scc g.adjacency_list
  let sccs1 := sccs0.filter (fun s => 2 ≤ s.length)
  let sccs2 := ssort (fun a b => decide (a.length < b.length)) sccs1
  let sccs := if 20 < sccs2.length then sccs2.take 20 else sccs2
  let results := sccs_loop g max_results sccs [] []
  (ssort (fun r1 r2 => decide (r2.risk_score < r1.risk_score)) results).take
    max_results

/-! ### Shell detector (`graph/shell_detector.py`) -/

/-- Embeds `_dfs_chain_length`: longest path length from `current` to `target`,
depth-bounded at 10, copying the visited set per branch. -/
def dfs_chain_length (g : GraphData) (target : Node) :
    Nat → Node → List Node → Nat → Nat
  | 0, _, _, _ => 0
  | fuel + 1, current, visited, depth =>
    if 10 < depth then 0
    else if current = target then depth
    else if current ∈ visited then 0
    else
      (adj g current).foldl
        (fun m e =>
          max m (dfs_chain_length g target fuel e.receiver_id
            (sadd visited current) (depth + 1)))
        0

/-- Embeds `_is_in_chain`: some incoming sender starts a path of length ≥ 3 back to
the node.  The fuel 12 covers every call the depth bound 10 permits. -/
def is_in_chain (node : Node) (g : GraphData) : Bool :=
  (radj g node).any (fun e =>
    decide (3 ≤ dfs_chain_length g node 12 e.sender_id [] 0))

/-- Embeds `_has_high_velocity` of the shell detector: mean incoming vs mean
outgoing timestamp differ by less than 24 hours. -/
def shell_high_velocity (node : Node) (g : GraphData) : Bool :=
  let incoming := radj g node
  let outgoing := adj g node
  if incoming.isEmpty || outgoing.isEmpty then false
  else
    let avg_in : ℚ := ((incoming.map (fun e => (e.timestamp : ℚ))).sum) /
      (incoming.length : ℚ)
    let avg_out : ℚ := ((outgoing.map (fun e => (e.timestamp : ℚ))).sum) /
      (outgoing.length : ℚ)
    decide (|avg_out - avg_in| / 3600 < 24)

/-- Embeds `detect_shell_accounts`. -/
def detect_shell_accounts (g : GraphData) : List Node :=
  g.node_stats.foldl
    (fun acc p =>
      if p.2.in_degree = 0 ∨ p.2.out_degree = 0 then acc
      else if 0 < p.2.total_received ∧
          (8/10 : ℚ) ≤ p.2.total_sent / p.2.total_received ∧
          p.2.total_sent / p.2.total_received ≤ 12/10 then
        if is_in_chain p.1 g then
          if shell_high_velocity p.1 g then sadd acc p.1 else acc
        else acc
      else acc)
    []

/-! ### Scorer (`graph/scorer.py`) -/

/-- Embeds `_has_high_velocity` of the scorer. -/
def has_high_velocity (account : Node) (g : GraphData) : Bool :=
  match statsOf g account with
  | none => false
  | some st =>
    match st.first_tx, st.last_tx with
    | some ft, some lt =>
      let span : ℚ := ((lt - ft : ℤ) : ℚ) / 86400
      if span = 0 then true
      else decide (10 < (st.transaction_count : ℚ) / span)
    | _, _ => false

/-- Embeds `_has_below_threshold_txs`: more than 70% of the adjacent edges below
the threshold, with at least five adjacent edges. -/
def has_below_threshold_txs (account : Node) (g : GraphData) : Bool :=
  let all_txs := adj g account ++ radj g account
  if all_txs.isEmpty then false
  else
    decide ((7/10 : ℚ) <
        ((all_txs.countP (fun e => decide (e.amount < SMURFING_THRESHOLD))) : ℚ) /
          (all_txs.length : ℚ)) &&
      decide (5 ≤ all_txs.length)

/-- The per-account record built by `score_accounts`. -/
structure AccountScore where
  suspicion_score : ℚ
  flags : List String
  total_transactions : Nat
  total_sent : ℚ
  total_received : ℚ
  connected_rings : List Nat
deriving DecidableEq, Repr

/-- The smurfing bonus (up to twice 30) of `score_accounts`. -/
def smurf_bonus (g : GraphData) (smurfing : List Node) (account : Node) : ℚ :=
  if account ∈ smurfing then
    match statsOf g account with
    | some st =>
      (if 5 ≤ st.in_degree then (30 : ℚ) else 0) +
        (if 5 ≤ st.out_degree then (30 : ℚ) else 0)
    | none => 0
  else 0

/-- The flag strings appended by the smurfing block of `score_accounts`. -/
def smurf_flags (g : GraphData) (smurfing : List Node) (account : Node) :
    List String :=
  if account ∈ smurfing then
    match statsOf g account with
    | some st =>
      (if 5 ≤ st.in_degree then ["fan_in_smurfing"] else []) ++
        (if 5 ≤ st.out_degree then ["fan_out_smurfing"] else [])
    | none => []
  else []

/-- The flag list of `score_accounts` before the multi-pattern check. -/
def flags_pre (g : GraphData) (cycle_members smurfing shell : List Node)
    (account : Node) : List String :=
  (if account ∈ cycle_members then ["cycle_member"] else []) ++
    smurf_flags g smurfing account ++
    (if account ∈ shell then ["shell_account"] else []) ++
    (if has_high_velocity account g then ["high_velocity"] else []) ++
    (if has_below_threshold_txs account g then ["below_threshold_structuring"]
      else [])

/-- The additive score of `score_accounts` before the multi-pattern bonus. -/
def score_pre (g : GraphData) (cycle_members smurfing shell : List Node)
    (account : Node) : ℚ :=
  (if account ∈ cycle_members then (50 : ℚ) else 0) +
    smurf_bonus g smurfing account +
    (if account ∈ shell then (20 : ℚ) else 0) +
    (if has_high_velocity account g then (10 : ℚ) else 0) +
    (if has_below_threshold_txs account g then (20 : ℚ) else 0)

/-- Embeds `connected_rings`: indices of the rings containing the account. -/
def connected_rings (fraud_rings : List Ring) (account : Node) : List Nat :=
  (List.range fraud_rings.length).filter
    (fun i => decide (account ∈ ((fraud_rings.getD i default).members)))

/-- The full flag list of `score_accounts`, after the multi-pattern
check. -/
def flags_all (g : GraphData) (cycle_members smurfing shell : List Node)
    (account : Node) : List String :=
  flags_pre g cycle_members smurfing shell account ++
    (if 3 ≤ (flags_pre g cycle_members smurfing shell account).length then
      ["multiple_patterns"] else [])

/-- The final suspicion score of `score_accounts`: additive score plus
multi-pattern bonus, clamped at 100, rounded to two decimals. -/
def score_value (g : GraphData) (cycle_members smurfing shell : List Node)
    (account : Node) : ℚ :=
  round2 (min (score_pre g cycle_members smurfing shell account +
    (if 3 ≤ (flags_pre g cycle_members smurfing shell account).length then
      (10 : ℚ) else 0)) 100)

/-- The body of the `for account in all_flagged` loop of `score_accounts`. -/
def score_one (g : GraphData) (cycle_members smurfing shell : List Node)
    (fraud_rings : List Ring) (account : Node) : AccountScore :=
  { suspicion_score := score_value g cycle_members smurfing shell account
    flags := flags_all g cycle_members smurfing shell account
    total_transactions :=
      match statsOf g account with
      | some st => st.transaction_count
      | none => 0
    total_sent :=
      match statsOf g account with
      | some st => round2 st.total_sent
      | none => 0
    total_received :=
      match statsOf g account with
      | some st => round2 st.total_received
      | none => 0
    connected_rings := connected_rings fraud_rings account }

/-- The union `cycle_members | smurfing_accounts | shell_accounts`, in one
canonical insertion order. -/
def all_flagged (cycle_members smurfing shell : List Node) : List Node :=
  (cycle_members ++ smurfing ++ shell).foldl sadd []

/-- Embeds `score_accounts`, with the iteration order over the `all_flagged` set an
explicit parameter (Python iterates a hash set here). -/
def score_accounts_with (g : GraphData) (cycle_members smurfing shell : List Node)
    (fraud_rings : List Ring) (order : List Node) : List (Node × AccountScore) :=
  order.map (fun a => (a, score_one g cycle_members smurfing shell fraud_rings a))

/-- Embeds `score_accounts` under the canonical iteration order. -/
def score_accounts (g : GraphData) (cycle_members smurfing shell : List Node)
    (fraud_rings : List Ring) : List (Node × AccountScore) :=
  score_accounts_with g cycle_members smurfing shell fraud_rings
    (all_flagged cycle_members smurfing shell)

/-! ### False-positive guard (`graph/false_positive_guard.py`) -/

/-- Embeds `_is_merchant`. -/
def is_merchant (account : Node) (st : NodeStats) (cycle_members : List Node) :
    Bool :=
  if account ∈ cycle_members then false
  else if st.transaction_count < 50 then false
  else if st.in_degree < 20 then false
  else decide ((7/10 : ℚ) ≤ (st.unique_senders.length : ℚ) / (st.in_degree : ℚ))

/-- Day differences between consecutive outgoing timestamps
(`(t2 - t1).days`, i.e. floor division of the second difference by 86400). -/
def payroll_intervals (sorted_txs : List Edge) : List ℤ :=
  (sorted_txs.zip sorted_txs.tail).map
    (fun p => Int.fdiv (p.2.timestamp - p.1.timestamp) 86400)

/-- Embeds `_is_payroll`. -/
def is_payroll (account : Node) (g : GraphData) : Bool :=
  let outgoing := adj g account
  if outgoing.length < 10 then false
  else
    let intervals := payroll_intervals (sort_by_timestamp outgoing)
    if intervals.isEmpty then false
    else
      decide ((6/10 : ℚ) <
        ((intervals.countP (fun d =>
          decide ((6 ≤ d ∧ d ≤ 8) ∨ (13 ≤ d ∧ d ≤ 15)))) : ℚ) /
          (intervals.length : ℚ))

/-- Embeds `_is_exchange_hub`. -/
def is_exchange_hub (account : Node) (st : NodeStats)
    (cycle_members : List Node) : Bool :=
  if account ∈ cycle_members then false
  else if st.in_degree < 15 ∨ st.out_degree < 15 then false
  else if 0 < st.total_received then
    decide ((7/10 : ℚ) ≤ st.total_sent / st.total_received ∧
      st.total_sent / st.total_received ≤ 13/10)
  else true

/-- Embeds `filter_false_positives`. -/
def filter_false_positives (scored : List (Node × AccountScore))
    (g : GraphData) (cycle_members : List Node) : List (Node × AccountScore) :=
  scored.filter (fun p =>
    if p.2.suspicion_score < 40 then false
    else
      match statsOf g p.1 with
      | none => false
      | some st =>
        !(is_merchant p.1 st cycle_members) && !(is_payroll p.1 g) &&
          !(is_exchange_hub p.1 st cycle_members))

/-! ### Result assembly and base pipeline
(`utils/json_builder.py`, `routes/detect.py`) -/

/-- The member set of all rings (`cycle_members.update(ring['members'])`). -/
def rings_members (rings : List Ring) : List Node :=
  rings.foldl (fun acc r => r.members.foldl sadd acc) []

/-- The suspicious-account list of `build_output`: retained accounts sorted
by suspicion score descending (stable). -/
def suspicious_sorted (filtered : List (Node × AccountScore)) :
    List (Node × AccountScore) :=
  ssort (fun x y => decide (y.2.suspicion_score < x.2.suspicion_score)) filtered

/-- End-to-end suspicious-account list of the base `/detect` pipeline (graph
build, detectors, scorer with the given set-iteration order, guard, output
sort). -/
def pipeline_suspicious (txs : List Edge) (order : List Node) :
    List (Node × AccountScore) :=
  let g := build_graph txs
  let rings := detect_cycles g 50
  let cm := rings_members rings
  let sm := detect_smurfing g
  let sh := detect_shell_accounts g
  let scored := score_accounts_with g cm sm sh rings order
  suspicious_sorted (filter_false_positives scored g cm)

/-- The ring list returned by the base `/detect` pipeline. -/
def pipeline_rings (txs : List Edge) : List Ring :=
  detect_cycles (build_graph txs) 50

/-! ### Configuration and enhanced pipeline
(`config.py`, `utils/enhanced_detector.py`, `routes/detect_enhanced.py`)

Whitelist and high-risk matching operate on account-id strings in the
source; the embedding takes them as Boolean predicates on accounts. -/

/-- The configuration fields consulted by the enhanced pipeline
(`config.py`, `DetectionConfig`; `BELOW_THRESHOLD_FRAC` embeds the source's
below-threshold fraction field). -/
structure DetectionConfig where
  SMURFING_THRESHOLD : ℚ := 10000
  TIME_WINDOW_HOURS : ℤ := 72
  MIN_FAN_DEGREE : Nat := 5
  BELOW_THRESHOLD_FRAC : ℚ := 8/10
  MIN_SUSPICION_SCORE : ℚ := 40
  SCORE_CYCLE_MEMBER : ℚ := 50
  SCORE_FAN_IN : ℚ := 30
  SCORE_FAN_OUT : ℚ := 30
  SCORE_SHELL : ℚ := 20
  SCORE_HIGH_VELOCITY : ℚ := 10
  SCORE_BELOW_THRESHOLD : ℚ := 20
  SCORE_MULTIPLE_PATTERNS : ℚ := 10
  MERCHANT_MIN_TX : Nat := 50
  MERCHANT_MIN_IN_DEGREE : Nat := 20
  MERCHANT_DIVERSITY : ℚ := 7/10
  PAYROLL_REGULARITY : ℚ := 6/10
  PAYROLL_MIN_TX : Nat := 10
  EXCHANGE_MIN_DEGREE : Nat := 15
  EXCHANGE_FLOW_MIN : ℚ := 7/10
  EXCHANGE_FLOW_MAX : ℚ := 13/10
  TX_PER_DAY_THRESHOLD : ℚ := 10
deriving Repr

/-- Embeds `PresetConfigs.conservative()`. -/
def conservative : DetectionConfig :=
  { SMURFING_THRESHOLD := 12000
    TIME_WINDOW_HOURS := 48
    MIN_FAN_DEGREE := 7
    MIN_SUSPICION_SCORE := 55
    TX_PER_DAY_THRESHOLD := 15 }

/-- Embeds `EnhancedCycleDetector.detect`: keep rings whose risk score reaches
`MIN_SUSPICION_SCORE - 10`. -/
def enhanced_cycles (cfg : DetectionConfig) (g : GraphData) : List Ring :=
  (detect_cycles g 50).filter
    (fun r => decide (cfg.MIN_SUSPICION_SCORE - 10 ≤ r.risk_score))

/-- Embeds `EnhancedSmurfingDetector.detect`: base detector, then whitelist
filtering, then high-risk additions. -/
def enhanced_smurfing (wl hr : Node → Bool) (g : GraphData) : List Node :=
  let filtered := (detect_smurfing g).foldl
    (fun acc a => if !(wl a) then sadd acc a else acc) []
  g.node_set.foldl
    (fun acc a =>
      if hr a then
        match statsOf g a with
        | some st =>
          if 3 ≤ st.out_degree ∨ 3 ≤ st.in_degree then sadd acc a else acc
        | none => acc
      else acc)
    filtered

/-- Embeds `EnhancedShellDetector.detect`. -/
def enhanced_shell (wl : Node → Bool) (g : GraphData) : List Node :=
  (detect_shell_accounts g).foldl
    (fun acc a => if !(wl a) then sadd acc a else acc) []

/-- Embeds `EnhancedScorer._has_high_velocity`. -/
def enh_high_velocity (cfg : DetectionConfig) (account : Node)
    (g : GraphData) : Bool :=
  match statsOf g account with
  | none => false
  | some st =>
    match st.first_tx, st.last_tx with
    | some ft, some lt =>
      let span : ℚ := ((lt - ft : ℤ) : ℚ) / 86400
      if span = 0 then true
      else decide (cfg.TX_PER_DAY_THRESHOLD < (st.transaction_count : ℚ) / span)
    | _, _ => false

/-- Embeds `EnhancedScorer._has_below_threshold_txs`. -/
def enh_below_threshold (cfg : DetectionConfig) (account : Node)
    (g : GraphData) : Bool :=
  let all_txs := adj g account ++ radj g account
  if all_txs.isEmpty then false
  else
    decide (cfg.BELOW_THRESHOLD_FRAC <
        ((all_txs.countP (fun e => decide (e.amount < cfg.SMURFING_THRESHOLD))) : ℚ) /
          (all_txs.length : ℚ)) &&
      decide (5 ≤ all_txs.length)

/-- Flag list of `EnhancedScorer.score_accounts` before the multi-pattern
check. -/
def enh_flags_pre (cfg : DetectionConfig) (g : GraphData)
    (cycle_members smurfing shell : List Node) (account : Node) : List String :=
  (if account ∈ cycle_members then ["cycle_member"] else []) ++
    (if account ∈ smurfing then
      match statsOf g account with
      | some st =>
        (if cfg.MIN_FAN_DEGREE ≤ st.in_degree then ["fan_in_smurfing"] else []) ++
          (if cfg.MIN_FAN_DEGREE ≤ st.out_degree then ["fan_out_smurfing"] else [])
      | none => []
    else []) ++
    (if account ∈ shell then ["shell_account"] else []) ++
    (if enh_high_velocity cfg account g then ["high_velocity"] else []) ++
    (if enh_below_threshold cfg account g then ["below_threshold_structuring"]
      else [])

/-- Additive score of `EnhancedScorer.score_accounts` before the
multi-pattern and high-risk bonuses. -/
def enh_score_pre (cfg : DetectionConfig) (g : GraphData)
    (cycle_members smurfing shell : List Node) (account : Node) : ℚ :=
  (if account ∈ cycle_members then cfg.SCORE_CYCLE_MEMBER else 0) +
    (if account ∈ smurfing then
      match statsOf g account with
      | some st =>
        (if cfg.MIN_FAN_DEGREE ≤ st.in_degree then cfg.SCORE_FAN_IN else 0) +
          (if cfg.MIN_FAN_DEGREE ≤ st.out_degree then cfg.SCORE_FAN_OUT else 0)
      | none => 0
    else 0) +
    (if account ∈ shell then cfg.SCORE_SHELL else 0) +
    (if enh_high_velocity cfg account g then cfg.SCORE_HIGH_VELOCITY else 0) +
    (if enh_below_threshold cfg account g then cfg.SCORE_BELOW_THRESHOLD else 0)

/-- Loop body of `EnhancedScorer.score_accounts` (the `account_type` echo
field is not modelled; no claim mentions it). -/
def enh_score_one (cfg : DetectionConfig) (hr : Node → Bool) (g : GraphData)
    (cycle_members smurfing shell : List Node) (fraud_rings : List Ring)
    (account : Node) : AccountScore :=
  let f0 := enh_flags_pre cfg g cycle_members smurfing shell account
  let f1 := f0 ++ (if 3 ≤ f0.length then ["multiple_patterns"] else [])
  let flags := f1 ++ (if hr account then ["high_risk_pattern"] else [])
  let score :=
    enh_score_pre cfg g cycle_members smurfing shell account +
      (if 3 ≤ f0.length then cfg.SCORE_MULTIPLE_PATTERNS else 0) +
      (if hr account then (15 : ℚ) else 0)
  { suspicion_score := round2 (min score 100)
    flags := flags
    total_transactions :=
      match statsOf g account with
      | some st => st.transaction_count
      | none => 0
    total_sent :=
      match statsOf g account with
      | some st => round2 st.total_sent
      | none => 0
    total_received :=
      match statsOf g account with
      | some st => round2 st.total_received
      | none => 0
    connected_rings := connected_rings fraud_rings account }

/-- Embeds `EnhancedScorer.score_accounts` under the canonical iteration order. -/
def enh_score_accounts (cfg : DetectionConfig) (hr : Node → Bool)
    (g : GraphData) (cycle_members smurfing shell : List Node)
    (fraud_rings : List Ring) : List (Node × AccountScore) :=
  (all_flagged cycle_members smurfing shell).map
    (fun a => (a, enh_score_one cfg hr g cycle_members smurfing shell fraud_rings a))

/-- Embeds `EnhancedFalsePositiveGuard._is_merchant`. -/
def enh_is_merchant (cfg : DetectionConfig) (account : Node) (st : NodeStats)
    (cycle_members : List Node) : Bool :=
  if account ∈ cycle_members then false
  else if st.transaction_count < cfg.MERCHANT_MIN_TX then false
  else if st.in_degree < cfg.MERCHANT_MIN_IN_DEGREE then false
  else
    let dr : ℚ := if 0 < st.in_degree then
      (st.unique_senders.length : ℚ) / (st.in_degree : ℚ) else 0
    decide (cfg.MERCHANT_DIVERSITY ≤ dr)

/-- Embeds `EnhancedFalsePositiveGuard._is_payroll` (adds the monthly 27–32 day
band). -/
def enh_is_payroll (cfg : DetectionConfig) (account : Node) (g : GraphData) :
    Bool :=
  let outgoing := adj g account
  if outgoing.length < cfg.PAYROLL_MIN_TX then false
  else
    let intervals := payroll_intervals (sort_by_timestamp outgoing)
    if intervals.isEmpty then false
    else
      decide (cfg.PAYROLL_REGULARITY <
        ((intervals.countP (fun d =>
          decide ((6 ≤ d ∧ d ≤ 8) ∨ (13 ≤ d ∧ d ≤ 15) ∨ (27 ≤ d ∧ d ≤ 32)))) : ℚ) /
          (intervals.length : ℚ))

/-- Embeds `EnhancedFalsePositiveGuard._is_exchange_hub`. -/
def enh_is_exchange_hub (cfg : DetectionConfig) (account : Node)
    (st : NodeStats) (cycle_members : List Node) : Bool :=
  if account ∈ cycle_members then false
  else if st.in_degree < cfg.EXCHANGE_MIN_DEGREE ∨
      st.out_degree < cfg.EXCHANGE_MIN_DEGREE then false
  else if 0 < st.total_received then
    decide (cfg.EXCHANGE_FLOW_MIN ≤ st.total_sent / st.total_received ∧
      st.total_sent / st.total_received ≤ cfg.EXCHANGE_FLOW_MAX)
  else true

/-- Embeds `EnhancedFalsePositiveGuard.filter`. -/
def enhanced_filter (cfg : DetectionConfig) (wl : Node → Bool)
    (scored : List (Node × AccountScore)) (g : GraphData)
    (cycle_members : List Node) : List (Node × AccountScore) :=
  scored.filter (fun p =>
    if p.2.suspicion_score < cfg.MIN_SUSPICION_SCORE then false
    else if wl p.1 then false
    else
      match statsOf g p.1 with
      | none => false
      | some st =>
        !(enh_is_merchant cfg p.1 st cycle_members) &&
          !(enh_is_payroll cfg p.1 g) &&
          !(enh_is_exchange_hub cfg p.1 st cycle_members))

/-- The retained suspicious accounts of the `/detect/enhanced` pipeline
(steps 4–9 of `detect_fraud_enhanced`). -/
def enhanced_pipeline_filtered (cfg : DetectionConfig) (wl hr : Node → Bool)
    (txs : List Edge) : List (Node × AccountScore) :=
  let g := build_graph txs
  let rings := enhanced_cycles cfg g
  let cm := rings_members rings
  let sm := enhanced_smurfing wl hr g
  let sh := enhanced_shell wl g
  let scored := enh_score_accounts cfg hr g cm sm sh rings
  enhanced_filter cfg wl scored g cm

/-! ### Concrete inputs used by the claim scenarios -/

/-- Edge constructor shorthand for concrete inputs. -/
def mkE (tid s r : Nat) (amt : ℚ) (ts : ℤ) : Edge :=
  { transaction_id := tid, sender_id := s, receiver_id := r,
    amount := amt, timestamp := ts }

/-- Scenario A: the uniform 3-cycle `A→B→C→A` (accounts 0,1,2). -/
def scenarioA_txs : List Edge :=
  [mkE 1 0 1 100 0, mkE 2 1 2 100 3600, mkE 3 2 0 100 7200]

/-- Scenario D: the chain `A→B→C→D` (accounts 0,1,2,3), each hop passing
the same amount on within one hour. -/
def scenarioD_txs : List Edge :=
  [mkE 1 0 1 100 0, mkE 2 1 2 100 3600, mkE 3 2 3 100 7200]

/-- Input refuting rotation-canonicality: a 38-node strongly connected
graph engineered so that the 100th raw cycle is recorded mid-DFS and the
interrupted enumeration then records a stale path. -/
def c5_txs : List Edge := [
    mkE 0 0 6 100 0,
    mkE 1 0 4 100 1,
    mkE 2 0 1 100 2,
    mkE 3 1 2 100 3,
    mkE 4 1 16 100 4,
    mkE 5 2 3 100 5,
    mkE 6 3 18 100 6,
    mkE 7 3 19 100 7,
    mkE 8 3 20 100 8,
    mkE 9 3 21 100 9,
    mkE 10 3 22 100 10,
    mkE 11 3 23 100 11,
    mkE 12 3 24 100 12,
    mkE 13 3 25 100 13,
    mkE 14 3 26 100 14,
    mkE 15 3 27 100 15,
    mkE 16 3 28 100 16,
    mkE 17 3 29 100 17,
    mkE 18 3 30 100 18,
    mkE 19 3 31 100 19,
    mkE 20 3 32 100 20,
    mkE 21 3 33 100 21,
    mkE 22 3 34 100 22,
    mkE 23 3 35 100 23,
    mkE 24 3 36 100 24,
    mkE 25 3 37 100 25,
    mkE 26 18 0 100 26,
    mkE 27 19 0 100 27,
    mkE 28 20 0 100 28,
    mkE 29 21 0 100 29,
    mkE 30 22 0 100 30,
    mkE 31 23 0 100 31,
    mkE 32 24 0 100 32,
    mkE 33 25 0 100 33,
    mkE 34 26 0 100 34,
    mkE 35 27 0 100 35,
    mkE 36 28 0 100 36,
    mkE 37 29 0 100 37,
    mkE 38 30 0 100 38,
    mkE 39 31 0 100 39,
    mkE 40 32 0 100 40,
    mkE 41 33 0 100 41,
    mkE 42 34 0 100 42,
    mkE 43 35 0 100 43,
    mkE 44 36 0 100 44,
    mkE 45 37 0 100 45,
    mkE 46 4 8 100 46,
    mkE 47 4 10 100 47,
    mkE 48 4 11 100 48,
    mkE 49 4 12 100 49,
    mkE 50 4 13 100 50,
    mkE 51 4 14 100 51,
    mkE 52 4 15 100 52,
    mkE 53 4 5 100 53,
    mkE 54 5 0 100 54,
    mkE 55 6 7 100 55,
    mkE 56 7 4 100 56,
    mkE 57 8 9 100 57,
    mkE 58 9 0 100 58,
    mkE 59 10 0 100 59,
    mkE 60 11 0 100 60,
    mkE 61 12 0 100 61,
    mkE 62 13 0 100 62,
    mkE 63 14 0 100 63,
    mkE 64 15 0 100 64,
    mkE 65 16 17 100 65,
    mkE 66 17 1 100 66]

/-- Input refuting the `≥ 70%` reading of the below-threshold rule: account
100 has exactly ten adjacent edges of which exactly seven are below the
threshold. -/
def c7_txs : List Edge :=
  [mkE 0 100 200 5000 0,
   mkE 1 100 201 5000 20000,
   mkE 2 100 202 5000 40000,
   mkE 3 100 203 5000 60000,
   mkE 4 100 204 5000 80000,
   mkE 5 100 205 5000 100000,
   mkE 6 100 206 5000 120000,
   mkE 7 100 300 20000 140000,
   mkE 8 100 301 20000 160000,
   mkE 9 100 302 20000 180000]

/-- Scenario B: account `X` (account 0) sends six edges of 9000 to six
distinct receivers inside a ten-hour window. -/
def scenarioB_txs : List Edge :=
  [mkE 0 0 10 9000 0,
   mkE 1 0 11 9000 7200,
   mkE 2 0 12 9000 14400,
   mkE 3 0 13 9000 21600,
   mkE 4 0 14 9000 28800,
   mkE 5 0 15 9000 36000]

/-- Input refuting byte-identical determinism across set-iteration orders:
two disjoint fan-out smurfing accounts (1 and 2) that tie at suspicion
score 50. -/
def c8_txs : List Edge :=
  [mkE 0 1 100 9000 0,
   mkE 1 1 101 9000 64800,
   mkE 2 1 102 9000 129600,
   mkE 3 1 103 9000 194400,
   mkE 4 1 104 9000 259200,
   mkE 5 2 200 9000 0,
   mkE 6 2 201 9000 64800,
   mkE 7 2 202 9000 129600,
   mkE 8 2 203 9000 194400,
   mkE 9 2 204 9000 259200]

/-! ### Invariants of the cycle enumeration

The DFS of `_find_cycles_in_scc` records a snapshot of `path` whenever an
edge closes back to `start`.  The invariants below show that every recorded
snapshot has between `min_len` and `max_len` pairwise-distinct members —
including the snapshots taken after the cycle cap triggered the early
`return` that skips the `path.pop()` cleanup. -/

/-- A recorded cycle snapshot within the length bounds, duplicate-free. -/
def GoodC (min_len max_len : Nat) (c : List Node) : Prop :=
  min_len ≤ c.length ∧ c.length ≤ max_len ∧ c.Nodup

/-- All recorded cycle snapshots are good. -/
def GoodS (min_len max_len : Nat) (cs : List (List Node)) : Prop :=
  ∀ c ∈ cs, GoodC min_len max_len c

/-- Precondition of `dfs_visit` at `depth`: good cycles so far, a
duplicate-free bounded path and, while the cap has not been reached (the
only states in which the path still grows), the exact book-keeping of the
Python code: the path holds `depth - 1` nodes, the visited set mirrors the
path, and the node about to be appended is fresh. -/
def VisitPre (min_len max_len max_cycles depth : Nat) (node : Node)
    (st : DfsSt) : Prop :=
  GoodS min_len max_len st.cycles ∧ st.path.Nodup ∧ st.path.length ≤ max_len ∧
  (st.cycles.length < max_cycles →
    st.path.length + 1 = depth ∧ node ∉ st.path ∧
      (∀ x, x ∈ st.visited ↔ x ∈ st.path))

/-- Postcondition of `dfs_visit`: good cycles, a duplicate-free bounded
path that never shrank below its entry length, monotone cycle list and —
when the cap still has not been reached — path and visited set restored
exactly. -/
def VisitPost (min_len max_len max_cycles : Nat) (stPre st' : DfsSt) : Prop :=
  GoodS min_len max_len st'.cycles ∧ st'.path.Nodup ∧
  st'.path.length ≤ max_len ∧
  stPre.path.length ≤ st'.path.length ∧
  stPre.cycles.length ≤ st'.cycles.length ∧
  (st'.cycles.length < max_cycles →
    st'.path = stPre.path ∧ st'.visited = stPre.visited)

/-- Invariant of the edge loop of a frame at `depth` whose state right
after appending its own node was `st1`. -/
def EdgesInv (min_len max_len max_cycles depth : Nat) (st1 : DfsSt)
    (p : DfsSt × Bool) : Prop :=
  GoodS min_len max_len p.1.cycles ∧ p.1.path.Nodup ∧
  p.1.path.length ≤ max_len ∧
  depth ≤ p.1.path.length ∧
  st1.cycles.length ≤ p.1.cycles.length ∧
  (p.2 = true → max_cycles ≤ p.1.cycles.length) ∧
  (p.1.cycles.length < max_cycles →
    p.2 = false ∧ p.1.path = st1.path ∧ p.1.visited = st1.visited)

theorem sadd_of_not_mem {α : Type _} [DecidableEq α] {l : List α} {x : α}
    (h : x ∉ l) : sadd l x = l ++ [x] := by
  simp [sadd, h]

theorem nodup_append_singleton {α : Type _} {l : List α} {x : α}
    (hnd : l.Nodup) (hx : x ∉ l) : (l ++ [x]).Nodup := by
  simp [List.nodup_append, hnd, hx]

theorem dropLast_append_singleton {α : Type _} (l : List α) (x : α) :
    (l ++ [x]).dropLast = l := by
  simp

theorem erase_append_singleton {α : Type _} [DecidableEq α] {l : List α}
    {x : α} (h : x ∉ l) : (l ++ [x]).erase x = l := by
  rw [List.erase_append_right _ h]
  simp

/-- One step of the edge loop preserves the loop invariant, given the
specification of the recursive child call. -/
theorem edge_step_inv (sccL : List Node) (start : Node)
    (min_len max_len max_cycles depth : Nat) (st1 : DfsSt)
    (child : Node → DfsSt → DfsSt)
    (hLen1 : st1.path.length = depth)
    (hVis1 : ∀ x, x ∈ st1.visited ↔ x ∈ st1.path)
    (hchild : ∀ nb st, VisitPre min_len max_len max_cycles (depth + 1) nb st →
      VisitPost min_len max_len max_cycles st (child nb st))
    (p : DfsSt × Bool) (e : Edge)
    (hp : EdgesInv min_len max_len max_cycles depth st1 p) :
    EdgesInv min_len max_len max_cycles depth st1
      (dfs_edge_step sccL start min_len max_cycles depth child p e) := by
  obtain ⟨st, flag⟩ := p
  obtain ⟨hGood, hNd, hLe, hDepth, hMono, hFlag, hClean⟩ := hp
  unfold dfs_edge_step
  cases flag with
  | true => exact ⟨hGood, hNd, hLe, hDepth, hMono, hFlag, hClean⟩
  | false =>
    simp only [Bool.false_eq_true, if_false]
    by_cases hscc : e.receiver_id ∉ sccL
    · rw [if_pos hscc]
      exact ⟨hGood, hNd, hLe, hDepth, hMono, hFlag, hClean⟩
    · rw [if_neg hscc]
      by_cases hclose : e.receiver_id = start ∧ min_len ≤ depth
      · rw [if_pos hclose]
        have hGoodPath : GoodC min_len max_len st.path :=
          ⟨le_trans hclose.2 hDepth, hLe, hNd⟩
        have hGood' : GoodS min_len max_len (st.cycles ++ [st.path]) := by
          intro c hc
          rcases List.mem_append.mp hc with h | h
          · exact hGood c h
          · rw [List.mem_singleton.mp h]
            exact hGoodPath
        by_cases hcap : max_cycles ≤ (st.cycles ++ [st.path]).length
        · rw [if_pos hcap]
          refine ⟨hGood', hNd, hLe, hDepth, ?_, fun _ => hcap, fun h => absurd hcap (not_le.mpr h)⟩
          calc st1.cycles.length ≤ st.cycles.length := hMono
          _ ≤ (st.cycles ++ [st.path]).length := by simp
        · rw [if_neg hcap]
          have hlt : st.cycles.length < max_cycles := by
            simp only [List.length_append, List.length_singleton] at hcap
            omega
          obtain ⟨-, hPath, hVisEq⟩ := hClean hlt
          refine ⟨hGood', hNd, hLe, hDepth, ?_, by simp, fun _ => ⟨rfl, hPath, hVisEq⟩⟩
          calc st1.cycles.length ≤ st.cycles.length := hMono
          _ ≤ (st.cycles ++ [st.path]).length := by simp
      · rw [if_neg hclose]
        by_cases hvisited : e.receiver_id ∈ st.visited
        · rw [if_pos hvisited]
          exact ⟨hGood, hNd, hLe, hDepth, hMono, hFlag, hClean⟩
        · rw [if_neg hvisited]
          have hpre : VisitPre min_len max_len max_cycles (depth + 1)
              e.receiver_id st := by
            refine ⟨hGood, hNd, hLe, fun hlt => ?_⟩
            obtain ⟨-, hPath, hVisEq⟩ := hClean hlt
            refine ⟨by rw [hPath, hLen1], ?_, ?_⟩
            · intro hmem
              apply hvisited
              rw [hVisEq, hVis1]
              rw [hPath] at hmem
              exact hmem
            · intro x
              rw [hVisEq, hPath]
              exact hVis1 x
          obtain ⟨hGood2, hNd2, hLe2, hLenGr, hCycGr, hClean2⟩ :=
            hchild e.receiver_id st hpre
          refine ⟨hGood2, hNd2, hLe2, le_trans hDepth hLenGr,
            le_trans hMono hCycGr, by simp, fun hlt => ?_⟩
          have hlt' : st.cycles.length < max_cycles := lt_of_le_of_lt hCycGr hlt
          obtain ⟨hPath2, hVis2⟩ := hClean2 hlt
          obtain ⟨-, hPath, hVisEq⟩ := hClean hlt'
          exact ⟨rfl, by rw [hPath2, hPath], by rw [hVis2, hVisEq]⟩

/-- The whole edge loop preserves the loop invariant. -/
theorem edges_loop_inv (sccL : List Node) (start : Node)
    (min_len max_len max_cycles depth : Nat) (st1 : DfsSt)
    (child : Node → DfsSt → DfsSt)
    (hLen1 : st1.path.length = depth)
    (hVis1 : ∀ x, x ∈ st1.visited ↔ x ∈ st1.path)
    (hchild : ∀ nb st, VisitPre min_len max_len max_cycles (depth + 1) nb st →
      VisitPost min_len max_len max_cycles st (child nb st)) :
    ∀ (es : List Edge) (p : DfsSt × Bool),
      EdgesInv min_len max_len max_cycles depth st1 p →
      EdgesInv min_len max_len max_cycles depth st1
        (es.foldl (dfs_edge_step sccL start min_len max_cycles depth child) p) := by
  intro es
  induction es with
  | nil => intro p hp; exact hp
  | cons e es ih =>
    intro p hp
    simp only [List.foldl_cons]
    exact ih _ (edge_step_inv sccL start min_len max_len max_cycles depth st1
      child hLen1 hVis1 hchild p e hp)

/-- Main invariant of the recorded cycles: `dfs_visit` satisfies its
pre/post specification. -/
theorem dfs_visit_spec (adjf : Node → List Edge) (sccL : List Node)
    (start : Node) (min_len max_len max_cycles : Nat) :
    ∀ (fuel : Nat) (node : Node) (depth : Nat) (st : DfsSt),
      VisitPre min_len max_len max_cycles depth node st →
      VisitPost min_len max_len max_cycles st
        (dfs_visit adjf sccL start min_len max_len max_cycles fuel node depth st) := by
  intro fuel
  induction fuel with
  | zero =>
    intro node depth st hpre
    obtain ⟨hGood, hNd, hLe, -⟩ := hpre
    exact ⟨hGood, hNd, hLe, le_refl _, le_refl _, fun _ => ⟨rfl, rfl⟩⟩
  | succ fuel ih =>
    intro node depth st hpre
    obtain ⟨hGood, hNd, hLe, hCleanPre⟩ := hpre
    rw [dfs_visit]
    by_cases hcap : max_cycles ≤ st.cycles.length
    · rw [if_pos hcap]
      exact ⟨hGood, hNd, hLe, le_refl _, le_refl _, fun _ => ⟨rfl, rfl⟩⟩
    · rw [if_neg hcap]
      by_cases hdepth : max_len < depth
      · rw [if_pos hdepth]
        exact ⟨hGood, hNd, hLe, le_refl _, le_refl _, fun _ => ⟨rfl, rfl⟩⟩
      · rw [if_neg hdepth]
        obtain ⟨hLenEq, hFresh, hVisEq⟩ := hCleanPre (not_le.mp hcap)
        dsimp only
        set st1 : DfsSt :=
          { st with path := st.path ++ [node], visited := sadd st.visited node }
          with hst1
        have hLen1 : st1.path.length = depth := by
          simp [hst1, hLenEq]
        have hNd1 : st1.path.Nodup := nodup_append_singleton hNd hFresh
        have hVis1 : ∀ x, x ∈ st1.visited ↔ x ∈ st1.path := by
          intro x
          simp only [hst1, mem_sadd, List.mem_append, List.mem_singleton]
          rw [hVisEq x]
        have hLe1 : st1.path.length ≤ max_len := by
          rw [hLen1]; exact not_lt.mp hdepth
        have hInit : EdgesInv min_len max_len max_cycles depth st1 (st1, false) := by
          refine ⟨hGood, hNd1, hLe1, le_of_eq hLen1.symm, le_refl _, by simp,
            fun _ => ⟨rfl, rfl, rfl⟩⟩
        set q := (adjf node).foldl
          (dfs_edge_step sccL start min_len max_cycles depth
            (fun nb s =>
              dfs_visit adjf sccL start min_len max_len max_cycles fuel
                nb (depth + 1) s))
          (st1, false) with hq
        have hLoop : EdgesInv min_len max_len max_cycles depth st1 q :=
          edges_loop_inv sccL start min_len max_len max_cycles depth
            st1 _ hLen1 hVis1
            (fun nb s hp => ih nb (depth + 1) s hp)
            (adjf node) (st1, false) hInit
        obtain ⟨hGood2, hNd2, hLe2, hDepth2, hMono2, hFlag2, hClean2⟩ := hLoop
        have hCycMono : st.cycles.length ≤ q.1.cycles.length := hMono2
        by_cases hflag : q.2 = true
        · rw [if_pos hflag]
          refine ⟨hGood2, hNd2, hLe2, ?_, hCycMono, fun hlt => ?_⟩
          · calc st.path.length ≤ depth := by omega
            _ ≤ q.1.path.length := hDepth2
          · exact absurd (hFlag2 hflag) (not_le.mpr hlt)
        · rw [if_neg hflag]
          refine ⟨hGood2, ?_, ?_, ?_, hCycMono, fun hlt => ?_⟩
          · exact hNd2.sublist (List.dropLast_sublist _)
          · simp only [List.length_dropLast]
            omega
          · simp only [List.length_dropLast]
            omega
          · obtain ⟨-, hPathEq, hVisEq2⟩ := hClean2 hlt
            constructor
            · show q.1.path.dropLast = st.path
              rw [hPathEq, hst1]
              exact dropLast_append_singleton st.path node
            · show q.1.visited.erase node = st.visited
              rw [hVisEq2, hst1]
              have hnv : node ∉ st.visited := fun hmem =>
                hFresh ((hVisEq node).mp hmem)
              rw [sadd_of_not_mem hnv]
              exact erase_append_singleton hnv

/-- The start-node loop only accumulates good cycles. -/
theorem starts_loop_good (adjf : Node → List Edge) (sccL : List Node)
    (min_len max_len max_cycles : Nat) :
    ∀ (starts : List Node) (cycles : List (List Node)),
      GoodS min_len max_len cycles →
      GoodS min_len max_len
        (starts_loop adjf sccL min_len max_len max_cycles starts cycles) := by
  intro starts
  induction starts with
  | nil => intro cycles h; exact h
  | cons s rest ih =>
    intro cycles h
    rw [starts_loop]
    by_cases hcap : max_cycles ≤ cycles.length
    · rw [if_pos hcap]; exact h
    · rw [if_neg hcap]
      apply ih
      have hpre : VisitPre min_len max_len max_cycles 1 s ⟨cycles, [], []⟩ :=
        ⟨h, List.nodup_nil, by simp, fun _ => ⟨by simp, by simp, by simp⟩⟩
      exact (dfs_visit_spec adjf sccL s min_len max_len max_cycles
        (max_len + 1) s 1 ⟨cycles, [], []⟩ hpre).1

/-- Every cycle returned by `_find_cycles_in_scc` is good. -/
theorem find_cycles_good (scc : List Node) (adjf : Node → List Edge)
    (min_len max_len max_cycles : Nat) :
    GoodS min_len max_len
      (find_cycles_in_scc scc adjf min_len max_len max_cycles) := by
  unfold find_cycles_in_scc
  apply starts_loop_good
  intro c hc
  simp at hc

/-- Embeds `_cycle_risk_score` always lies in `[50, 95]`: base 50 plus bonuses of
at most 20 + 15 + 10 = 45, and the clamp `min · 100` never bites. -/
theorem cycle_risk_score_bounds (cycle : List Node) (g : GraphData) :
    50 ≤ cycle_risk_score cycle g ∧ cycle_risk_score cycle g ≤ 95 := by
  unfold cycle_risk_score
  dsimp only
  split_ifs <;> norm_num

/-- The combined per-ring invariant established for every returned ring. -/
def RingInv (r : Ring) : Prop :=
  3 ≤ r.cycle_length ∧ r.cycle_length ≤ 5 ∧
  r.members.length = r.cycle_length ∧ r.members.Nodup ∧
  50 ≤ r.risk_score ∧ r.risk_score ≤ 95

theorem ring_of_inv (g : GraphData) (c : List Node) (h : GoodC 3 5 c) :
    RingInv (ring_of g c) := by
  obtain ⟨h3, h5, hnd⟩ := h
  have hb := cycle_risk_score_bounds c g
  have hr := round2_mem_Icc 50 95 (cycle_risk_score c g)
    (by exact_mod_cast hb.1) (by exact_mod_cast hb.2)
  refine ⟨h3, h5, rfl, hnd, ?_, ?_⟩
  · exact_mod_cast hr.1
  · exact_mod_cast hr.2

theorem raw_loop_inv (g : GraphData) (max_results : Nat) :
    ∀ (cs : List (List Node)) (seen : List (List Node)) (results : List Ring),
      (∀ c ∈ cs, GoodC 3 5 c) → (∀ r ∈ results, RingInv r) →
      ∀ r ∈ (raw_loop g max_results cs seen results).2, RingInv r := by
  intro cs
  induction cs with
  | nil => intro seen results _ hres r hr; exact hres r hr
  | cons c cs ih =>
    intro seen results hcs hres r hr
    rw [raw_loop] at hr
    by_cases hcap : max_results ≤ results.length
    · rw [if_pos hcap] at hr
      exact hres r hr
    · rw [if_neg hcap] at hr
      by_cases hseen : canonicalize c ∈ seen
      · rw [if_pos hseen] at hr
        exact ih seen results (fun c' hc' => hcs c' (List.mem_cons_of_mem _ hc'))
          hres r hr
      · rw [if_neg hseen] at hr
        refine ih _ _ (fun c' hc' => hcs c' (List.mem_cons_of_mem _ hc'))
          (fun r' hr' => ?_) r hr
        rcases List.mem_append.mp hr' with h | h
        · exact hres r' h
        · rw [List.mem_singleton.mp h]
          exact ring_of_inv g c (hcs c (List.mem_cons_self c cs))

theorem sccs_loop_inv (g : GraphData) (max_results : Nat) :
    ∀ (sccs : List (List Node)) (seen : List (List Node)) (results : List Ring),
      (∀ r ∈ results, RingInv r) →
      ∀ r ∈ sccs_loop g max_results sccs seen results, RingInv r := by
  intro sccs
  induction sccs with
  | nil => intro seen results hres r hr; exact hres r hr
  | cons s ss ih =>
    intro seen results hres r hr
    rw [sccs_loop] at hr
    by_cases hcap : max_results ≤ results.length
    · rw [if_pos hcap] at hr
      exact hres r hr
    · rw [if_neg hcap] at hr
      dsimp only at hr
      refine ih _ _ (fun r' hr' => ?_) r hr
      refine raw_loop_inv g max_results _ seen results (fun c hc => ?_) hres r' hr'
      exact find_cycles_good s (fun n => adj g n) 3 5 100 c hc

/-- Every ring output by `detect_cycles` satisfies the combined invariant:
length bounds, member count, distinct members, risk score in `[50, 95]`. -/
theorem detect_cycles_inv (g : GraphData) (max_results : Nat) :
    ∀ r ∈ detect_cycles g max_results, RingInv r := by
  intro r hr
  unfold detect_cycles at hr
  dsimp only at hr
  have hr1 : r ∈ ssort (fun r1 r2 => decide (r2.risk_score < r1.risk_score))
      (sccs_loop g max_results _ [] []) :=
    (List.take_sublist _ _).mem hr
  have hr2 : r ∈ sccs_loop g max_results _ [] [] :=
    (mem_ssort _ _ r).mp hr1
  exact sccs_loop_inv g max_results _ [] [] (by intro r' hr'; simp at hr') r hr2

/-! ### Bounds on the scorer -/

theorem smurf_bonus_nonneg (g : GraphData) (sm : List Node) (a : Node) :
    0 ≤ smurf_bonus g sm a := by
  unfold smurf_bonus
  by_cases h : a ∈ sm
  · rw [if_pos h]
    cases statsOf g a with
    | none => norm_num
    | some st =>
      dsimp only
      split_ifs <;> norm_num
  · rw [if_neg h]

theorem score_pre_nonneg (g : GraphData) (cm sm sh : List Node) (a : Node) :
    0 ≤ score_pre g cm sm sh a := by
  have hs := smurf_bonus_nonneg g sm a
  unfold score_pre
  split_ifs <;> linarith

theorem score_value_bounds (g : GraphData) (cm sm sh : List Node) (a : Node) :
    0 ≤ score_value g cm sm sh a ∧ score_value g cm sm sh a ≤ 100 := by
  have hp := score_pre_nonneg g cm sm sh a
  have hb : (0 : ℚ) ≤ (if 3 ≤ (flags_pre g cm sm sh a).length then (10 : ℚ) else 0) := by
    split_ifs <;> norm_num
  have h0 : (0 : ℚ) ≤ min (score_pre g cm sm sh a +
      (if 3 ≤ (flags_pre g cm sm sh a).length then (10 : ℚ) else 0)) 100 :=
    le_min (by linarith) (by norm_num)
  have h100 : min (score_pre g cm sm sh a +
      (if 3 ≤ (flags_pre g cm sm sh a).length then (10 : ℚ) else 0)) 100 ≤ 100 :=
    min_le_right _ _
  have hr := round2_mem_Icc 0 100 _ (by exact_mod_cast h0) (by exact_mod_cast h100)
  unfold score_value
  constructor
  · exact_mod_cast hr.1
  · exact_mod_cast hr.2

theorem score_one_bounds (g : GraphData) (cm sm sh : List Node)
    (rings : List Ring) (a : Node) :
    0 ≤ (score_one g cm sm sh rings a).suspicion_score ∧
      (score_one g cm sm sh rings a).suspicion_score ≤ 100 := by
  have h : (score_one g cm sm sh rings a).suspicion_score =
      score_value g cm sm sh a := rfl
  rw [h]
  exact score_value_bounds g cm sm sh a

/-! ### Claim theorems: general invariants -/

/-- C4: every ring returned by the cycle detector has
`cycle_length ∈ [MIN_CYCLE_LENGTH, MAX_CYCLE_LENGTH] = [3, 5]` and its
member list has exactly `cycle_length` elements, on every input graph. -/
theorem C4_cycle_length_bounds (g : GraphData) (max_results : Nat) :
    ∀ r ∈ detect_cycles g max_results,
      3 ≤ r.cycle_length ∧ r.cycle_length ≤ 5 ∧
        r.members.length = r.cycle_length := by
  intro r hr
  obtain ⟨h3, h5, hlen, -, -, -⟩ := detect_cycles_inv g max_results r hr
  exact ⟨h3, h5, hlen⟩

/-- Witness for C4 at the Scenario A input. -/
theorem C4_witness :
    3 ≤ ({ members := [0, 1, 2], total_flow := 300, transaction_count := 3,
           risk_score := 70, cycle_length := 3 } : Ring).cycle_length ∧
    ({ members := [0, 1, 2], total_flow := 300, transaction_count := 3,
       risk_score := 70, cycle_length := 3 } : Ring).cycle_length ≤ 5 ∧
    ({ members := [0, 1, 2], total_flow := 300, transaction_count := 3,
       risk_score := 70, cycle_length := 3 } : Ring).members.length =
      ({ members := [0, 1, 2], total_flow := 300, transaction_count := 3,
         risk_score := 70, cycle_length := 3 } : Ring).cycle_length :=
  C4_cycle_length_bounds (build_graph scenarioA_txs) 50 _
    (by with_unfolding_all decide)

/-- C5, amended: every ring's member list is duplicate-free on every input;
the rotation-canonical property (first member = smallest member) does not
hold in general — it can fail when the per-SCC cycle cap of 100 interrupts
the enumeration (see the counterexample). -/
theorem C5_amended_members_nodup (g : GraphData) (max_results : Nat) :
    ∀ r ∈ detect_cycles g max_results, r.members.Nodup := by
  intro r hr
  exact (detect_cycles_inv g max_results r hr).2.2.2.1

/-- Witness for the amended C5 at the Scenario A input. -/
theorem C5_witness :
    ({ members := [0, 1, 2], total_flow := 300, transaction_count := 3,
       risk_score := 70, cycle_length := 3 } : Ring).members.Nodup :=
  C5_amended_members_nodup (build_graph scenarioA_txs) 50 _
    (by with_unfolding_all decide)

/-- C6: every suspicion score produced by the scorer (under any iteration
order of the flagged set) and every risk score produced by the cycle
detector lies in `[0, 100]`. -/
theorem C6_scores_within_range :
    (∀ (g : GraphData) (cm sm sh : List Node) (rings : List Ring)
        (order : List Node) (a : Node) (rec : AccountScore),
      (a, rec) ∈ score_accounts_with g cm sm sh rings order →
        0 ≤ rec.suspicion_score ∧ rec.suspicion_score ≤ 100) ∧
    (∀ (g : GraphData) (max_results : Nat), ∀ r ∈ detect_cycles g max_results,
      0 ≤ r.risk_score ∧ r.risk_score ≤ 100) := by
  constructor
  · intro g cm sm sh rings order a rec hmem
    obtain ⟨x, -, hx⟩ := List.mem_map.mp hmem
    have hrec : rec = score_one g cm sm sh rings x := congrArg Prod.snd hx.symm
    rw [hrec]
    exact score_one_bounds g cm sm sh rings x
  · intro g max_results r hr
    obtain ⟨-, -, -, -, h50, h95⟩ := detect_cycles_inv g max_results r hr
    constructor <;> linarith

/-- Witness for C6: both parts applied at the Scenario A input. -/
theorem C6_witness :
    (0 ≤ (score_one (build_graph scenarioA_txs) [0] [] [] [] 0).suspicion_score ∧
      (score_one (build_graph scenarioA_txs) [0] [] [] [] 0).suspicion_score ≤ 100) ∧
    (0 ≤ ({ members := [0, 1, 2], total_flow := 300, transaction_count := 3,
            risk_score := 70, cycle_length := 3 } : Ring).risk_score ∧
      ({ members := [0, 1, 2], total_flow := 300, transaction_count := 3,
         risk_score := 70, cycle_length := 3 } : Ring).risk_score ≤ 100) :=
  ⟨C6_scores_within_range.1 (build_graph scenarioA_txs) [0] [] [] [] [0] 0 _
      (by simp [score_accounts_with]),
    C6_scores_within_range.2 (build_graph scenarioA_txs) 50 _
      (by with_unfolding_all decide)⟩

/-- C10: every ring's risk score lies in `[50, 95]`: the base 50 is always
present, the bonuses add at most 45, and the clamp at 100 never takes
effect. -/
theorem C10_risk_bounds (g : GraphData) (max_results : Nat) :
    ∀ r ∈ detect_cycles g max_results,
      50 ≤ r.risk_score ∧ r.risk_score ≤ 95 := by
  intro r hr
  obtain ⟨-, -, -, -, h50, h95⟩ := detect_cycles_inv g max_results r hr
  exact ⟨h50, h95⟩

/-- Witness for C10 at the Scenario A input. -/
theorem C10_witness :
    50 ≤ ({ members := [0, 1, 2], total_flow := 300, transaction_count := 3,
            risk_score := 70, cycle_length := 3 } : Ring).risk_score ∧
    ({ members := [0, 1, 2], total_flow := 300, transaction_count := 3,
       risk_score := 70, cycle_length := 3 } : Ring).risk_score ≤ 95 :=
  C10_risk_bounds (build_graph scenarioA_txs) 50 _
    (by with_unfolding_all decide)

/-! ### Builder invariants and the smurfing characterization -/

/-- Embeds `stats[a].out_degree`, 0 when the account is unknown. -/
def stat_out (g : GraphData) (a : Node) : Nat :=
  ((statsOf g a).getD {}).out_degree

/-- Embeds `stats[a].in_degree`, 0 when the account is unknown. -/
def stat_in (g : GraphData) (a : Node) : Nat :=
  ((statsOf g a).getD {}).in_degree

theorem adj_add_edge (g : GraphData) (e : Edge) (a : Node) :
    adj (add_edge g e) a =
      if a = e.sender_id then adj g a ++ [e] else adj g a := by
  unfold adj add_edge
  by_cases h : a = e.sender_id
  · subst h
    rw [if_pos rfl, alookup_upsert_self]
    rfl
  · rw [if_neg h, alookup_upsert_ne _ _ _ _ _ h]

theorem radj_add_edge (g : GraphData) (e : Edge) (a : Node) :
    radj (add_edge g e) a =
      if a = e.receiver_id then radj g a ++ [e] else radj g a := by
  unfold radj add_edge
  by_cases h : a = e.receiver_id
  · subst h
    rw [if_pos rfl, alookup_upsert_self]
    rfl
  · rw [if_neg h, alookup_upsert_ne _ _ _ _ _ h]

theorem stat_out_add_edge (g : GraphData) (e : Edge) (a : Node) :
    stat_out (add_edge g e) a =
      stat_out g a + (if a = e.sender_id then 1 else 0) := by
  unfold stat_out statsOf add_edge
  by_cases hr : a = e.receiver_id
  · subst hr
    rw [alookup_upsert_self]
    by_cases hs : e.receiver_id = e.sender_id
    · rw [if_pos hs, hs, alookup_upsert_self]
      simp [update_receiver_stats, update_sender_stats]
    · rw [if_neg hs, alookup_upsert_ne _ _ _ _ _ hs]
      simp [update_receiver_stats]
  · rw [alookup_upsert_ne _ _ _ _ _ hr]
    by_cases hs : a = e.sender_id
    · rw [if_pos hs, hs, alookup_upsert_self]
      simp [update_sender_stats]
    · rw [if_neg hs, alookup_upsert_ne _ _ _ _ _ hs]
      simp

theorem stat_in_add_edge (g : GraphData) (e : Edge) (a : Node) :
    stat_in (add_edge g e) a =
      stat_in g a + (if a = e.receiver_id then 1 else 0) := by
  unfold stat_in statsOf add_edge
  by_cases hr : a = e.receiver_id
  · subst hr
    rw [if_pos rfl, alookup_upsert_self]
    by_cases hs : e.receiver_id = e.sender_id
    · rw [hs, alookup_upsert_self]
      simp [update_receiver_stats, update_sender_stats]
    · rw [alookup_upsert_ne _ _ _ _ _ hs]
      simp [update_receiver_stats]
  · rw [if_neg hr, alookup_upsert_ne _ _ _ _ _ hr]
    by_cases hs : a = e.sender_id
    · rw [hs, alookup_upsert_self]
      simp [update_sender_stats]
    · rw [alookup_upsert_ne _ _ _ _ _ hs]
      simp

/-- In every graph the builder produces, the stored degrees equal the
adjacency-list lengths. -/
theorem build_graph_degrees (txs : List Edge) :
    ∀ a, stat_out (build_graph txs) a = (adj (build_graph txs) a).length ∧
      stat_in (build_graph txs) a = (radj (build_graph txs) a).length := by
  suffices h : ∀ (g : GraphData),
      (∀ a, stat_out g a = (adj g a).length ∧ stat_in g a = (radj g a).length) →
      ∀ a, stat_out (txs.foldl add_edge g) a = (adj (txs.foldl add_edge g) a).length ∧
        stat_in (txs.foldl add_edge g) a = (radj (txs.foldl add_edge g) a).length by
    apply h
    intro a
    constructor <;> rfl
  induction txs with
  | nil => intro g hg a; exact hg a
  | cons e txs ih =>
    intro g hg a
    simp only [List.foldl_cons]
    apply ih
    intro b
    rw [adj_add_edge, radj_add_edge, stat_out_add_edge, stat_in_add_edge]
    obtain ⟨h1, h2⟩ := hg b
    constructor
    · split_ifs <;> simp [h1]
    · split_ifs <;> simp [h2]

theorem alookup_isSome_iff {α β : Type _} [DecidableEq α]
    (l : List (α × β)) (k : α) :
    (alookup l k).isSome ↔ k ∈ l.map Prod.fst := by
  induction l with
  | nil => simp [alookup]
  | cons p ps ih =>
    by_cases h : p.1 = k
    · simp [alookup, h]
    · simp only [alookup, if_neg h, List.map_cons, List.mem_cons]
      rw [ih]
      constructor
      · exact Or.inr
      · rintro (hh | hh)
        · exact absurd hh.symm h
        · exact hh

theorem upsert_keys {α β : Type _} [DecidableEq α]
    (l : List (α × β)) (k : α) (f : β → β) (d : β) :
    (upsert l k f d).map Prod.fst =
      if k ∈ l.map Prod.fst then l.map Prod.fst else l.map Prod.fst ++ [k] := by
  induction l with
  | nil => simp [upsert]
  | cons p ps ih =>
    by_cases h : p.1 = k
    · simp [upsert, h]
    · simp only [upsert, if_neg h, List.map_cons, ih]
      have hne : ¬ (k = p.1) := fun hh => h hh.symm
      by_cases hmem : k ∈ ps.map Prod.fst
      · simp [hmem, hne]
      · simp [hmem, hne]

theorem upsert_keys_nodup {α β : Type _} [DecidableEq α]
    {l : List (α × β)} (k : α) (f : β → β) (d : β)
    (h : (l.map Prod.fst).Nodup) : ((upsert l k f d).map Prod.fst).Nodup := by
  rw [upsert_keys]
  by_cases hmem : k ∈ l.map Prod.fst
  · rw [if_pos hmem]; exact h
  · rw [if_neg hmem]
    exact nodup_append_singleton h hmem

/-- The builder's `node_stats` has pairwise-distinct keys. -/
theorem build_graph_stats_nodup (txs : List Edge) :
    ((build_graph txs).node_stats.map Prod.fst).Nodup := by
  suffices h : ∀ (g : GraphData), (g.node_stats.map Prod.fst).Nodup →
      ((txs.foldl add_edge g).node_stats.map Prod.fst).Nodup by
    exact h {} List.nodup_nil
  induction txs with
  | nil => intro g hg; exact hg
  | cons e txs ih =>
    intro g hg
    simp only [List.foldl_cons]
    exact ih _ (upsert_keys_nodup _ _ _ (upsert_keys_nodup _ _ _ hg))

theorem mem_iff_alookup {α β : Type _} [DecidableEq α]
    {l : List (α × β)} (hnd : (l.map Prod.fst).Nodup) (a : α) (b : β) :
    (a, b) ∈ l ↔ alookup l a = some b := by
  induction l with
  | nil => simp [alookup]
  | cons p ps ih =>
    simp only [List.map_cons, List.nodup_cons] at hnd
    by_cases h : p.1 = a
    · simp only [alookup, if_pos h, List.mem_cons, Option.some.injEq]
      constructor
      · rintro (hh | hh)
        · rw [← hh]
        · exact absurd (h ▸ (List.mem_map.mpr ⟨(a, b), hh, rfl⟩)) hnd.1
      · intro hh
        left
        rw [← h, ← hh]
    · simp only [alookup, if_neg h, List.mem_cons]
      rw [← ih hnd.2]
      constructor
      · rintro (hh | hh)
        · exact absurd (congrArg Prod.fst hh).symm h
        · exact hh
      · exact Or.inr

/-- Membership in a flagging fold of `detect_smurfing`. -/
theorem mem_detect_fold (l : List (Node × NodeStats))
    (p : Node → NodeStats → Bool) (init : List Node) (a : Node) :
    a ∈ l.foldl (fun acc q => if p q.1 q.2 then sadd acc q.1 else acc) init ↔
      a ∈ init ∨ ∃ st, (a, st) ∈ l ∧ p a st = true := by
  induction l generalizing init with
  | nil => simp
  | cons q l ih =>
    simp only [List.foldl_cons]
    rw [ih]
    by_cases hq : p q.1 q.2 = true
    · rw [if_pos hq]
      constructor
      · rintro (hmem | ⟨st, hst, hp⟩)
        · rcases (mem_sadd init q.1 a).mp hmem with h | h
          · exact Or.inl h
          · exact Or.inr ⟨q.2, by rw [h]; simp, by rw [h]; exact hq⟩
        · exact Or.inr ⟨st, List.mem_cons_of_mem _ hst, hp⟩
      · rintro (hmem | ⟨st, hst, hp⟩)
        · exact Or.inl ((mem_sadd init q.1 a).mpr (Or.inl hmem))
        · rcases List.mem_cons.mp hst with h | h
          · have ha : a = q.1 := (congrArg Prod.fst h)
            exact Or.inl ((mem_sadd init q.1 a).mpr (Or.inr ha))
          · exact Or.inr ⟨st, h, hp⟩
    · rw [if_neg hq]
      constructor
      · rintro (hmem | ⟨st, hst, hp⟩)
        · exact Or.inl hmem
        · exact Or.inr ⟨st, List.mem_cons_of_mem _ hst, hp⟩
      · rintro (hmem | ⟨st, hst, hp⟩)
        · exact Or.inl hmem
        · rcases List.mem_cons.mp hst with h | h
          · exfalso
            apply hq
            have ha : a = q.1 := congrArg Prod.fst h
            have hb : st = q.2 := congrArg Prod.snd h
            rw [← ha, ← hb]
            exact hp
          · exact Or.inr ⟨st, h, hp⟩

/-- Embeds `_check_smurfing_pattern` succeeds iff some window-start index hits. -/
theorem check_smurfing_pattern_iff (edges : List Edge) :
    check_smurfing_pattern edges = true ↔
      edges ≠ [] ∧ ∃ i < edges.length,
        window_hit (sort_by_timestamp edges) i = true := by
  unfold check_smurfing_pattern
  by_cases h : edges.isEmpty
  · rw [if_pos h]
    simp [List.isEmpty_iff.mp h]
  · rw [if_neg h]
    dsimp only
    rw [List.any_eq_true]
    have hlen : (sort_by_timestamp edges).length = edges.length :=
      length_ssort _ _
    constructor
    · rintro ⟨i, hi, hw⟩
      refine ⟨fun hnil => h (by rw [hnil]; rfl), i, ?_, hw⟩
      rw [← hlen]
      exact List.mem_range.mp hi
    · rintro ⟨-, i, hi, hw⟩
      exact ⟨i, List.mem_range.mpr (by rw [hlen]; exact hi), hw⟩

theorem statsOf_out_degree (txs : List Edge) (a : Node) (st : NodeStats)
    (h : statsOf (build_graph txs) a = some st) :
    st.out_degree = (adj (build_graph txs) a).length := by
  have hd := (build_graph_degrees txs a).1
  unfold stat_out at hd
  rw [h] at hd
  simpa using hd

theorem statsOf_in_degree (txs : List Edge) (a : Node) (st : NodeStats)
    (h : statsOf (build_graph txs) a = some st) :
    st.in_degree = (radj (build_graph txs) a).length := by
  have hd := (build_graph_degrees txs a).2
  unfold stat_in at hd
  rw [h] at hd
  simpa using hd

theorem adj_nil_of_statsOf_none (txs : List Edge) (a : Node)
    (h : statsOf (build_graph txs) a = none) :
    adj (build_graph txs) a = [] := by
  have hd := (build_graph_degrees txs a).1
  unfold stat_out at hd
  rw [h] at hd
  simp only [Option.getD_none] at hd
  have h0 : (adj (build_graph txs) a).length = 0 := by
    have : (NodeStats.out_degree {}) = 0 := rfl
    omega
  exact List.length_eq_zero.mp h0

theorem radj_nil_of_statsOf_none (txs : List Edge) (a : Node)
    (h : statsOf (build_graph txs) a = none) :
    radj (build_graph txs) a = [] := by
  have hd := (build_graph_degrees txs a).2
  unfold stat_in at hd
  rw [h] at hd
  simp only [Option.getD_none] at hd
  have h0 : (radj (build_graph txs) a).length = 0 := by
    have : (NodeStats.in_degree {}) = 0 := rfl
    omega
  exact List.length_eq_zero.mp h0

/-- C1: on every built graph, the smurfing detector returns exactly the
union of the fan-out-flagged accounts (out-degree ≥ 5 with a hitting
72-hour window among the sorted outgoing edges) and the fan-in-flagged
accounts (the same condition on incoming edges). -/
theorem C1_detect_smurfing_iff (txs : List Edge) (a : Node) :
    a ∈ detect_smurfing (build_graph txs) ↔
      (5 ≤ (adj (build_graph txs) a).length ∧
        ∃ i < (adj (build_graph txs) a).length,
          window_hit (sort_by_timestamp (adj (build_graph txs) a)) i = true) ∨
      (5 ≤ (radj (build_graph txs) a).length ∧
        ∃ i < (radj (build_graph txs) a).length,
          window_hit (sort_by_timestamp (radj (build_graph txs) a)) i = true) := by
  have hnd := build_graph_stats_nodup txs
  unfold detect_smurfing
  dsimp only
  rw [mem_detect_fold, mem_detect_fold]
  constructor
  · rintro (h | ⟨st, hst, hp⟩)
    · rcases h with h | ⟨st, hst, hp⟩
      · simp at h
      · left
        rw [mem_iff_alookup hnd] at hst
        unfold smurf_out_pred at hp
        rw [Bool.and_eq_true, decide_eq_true_eq] at hp
        obtain ⟨h5, hchk⟩ := hp
        rw [check_smurfing_pattern_iff] at hchk
        have hout := statsOf_out_degree txs a st hst
        exact ⟨hout ▸ h5, hchk.2⟩
    · right
      rw [mem_iff_alookup hnd] at hst
      unfold smurf_in_pred at hp
      rw [Bool.and_eq_true, decide_eq_true_eq] at hp
      obtain ⟨h5, hchk⟩ := hp
      rw [check_smurfing_pattern_iff] at hchk
      have hin := statsOf_in_degree txs a st hst
      exact ⟨hin ▸ h5, hchk.2⟩
  · rintro (⟨h5, hwin⟩ | ⟨h5, hwin⟩)
    · left
      right
      cases hstat : statsOf (build_graph txs) a with
      | none =>
        exfalso
        rw [adj_nil_of_statsOf_none txs a hstat] at h5
        simp at h5
      | some st =>
        refine ⟨st, ?_, ?_⟩
        · rw [mem_iff_alookup hnd]
          exact hstat
        · unfold smurf_out_pred
          rw [Bool.and_eq_true, decide_eq_true_eq]
          have hout := statsOf_out_degree txs a st hstat
          refine ⟨by rw [hout]; exact h5, ?_⟩
          rw [check_smurfing_pattern_iff]
          refine ⟨?_, hwin⟩
          intro hnil
          rw [hnil] at h5
          simp at h5
    · right
      cases hstat : statsOf (build_graph txs) a with
      | none =>
        exfalso
        rw [radj_nil_of_statsOf_none txs a hstat] at h5
        simp at h5
      | some st =>
        refine ⟨st, ?_, ?_⟩
        · rw [mem_iff_alookup hnd]
          exact hstat
        · unfold smurf_in_pred
          rw [Bool.and_eq_true, decide_eq_true_eq]
          have hin := statsOf_in_degree txs a st hstat
          refine ⟨by rw [hin]; exact h5, ?_⟩
          rw [check_smurfing_pattern_iff]
          refine ⟨?_, hwin⟩
          intro hnil
          rw [hnil] at h5
          simp at h5


/-- C7, amended: for every account processed by the scorer (member of the
union of cycle members, smurfing flags and shell flags), if it has at least
five adjacent edges and **strictly more** than 70% of them are below
`SMURFING_THRESHOLD`, the scorer emits `below_threshold_structuring` and
its additive score carries the explicit `+ 20` term. -/
theorem C7_below_threshold_strict (g : GraphData) (cm sm sh : List Node)
    (rings : List Ring) (a : Node)
    (hmem : a ∈ all_flagged cm sm sh)
    (h5 : 5 ≤ (adj g a ++ radj g a).length)
    (hratio : (7/10 : ℚ) <
      (((adj g a ++ radj g a).countP
        (fun e => decide (e.amount < SMURFING_THRESHOLD))) : ℚ) /
        ((adj g a ++ radj g a).length : ℚ)) :
    (a, score_one g cm sm sh rings a) ∈ score_accounts g cm sm sh rings ∧
    "below_threshold_structuring" ∈ (score_one g cm sm sh rings a).flags ∧
    (score_one g cm sm sh rings a).suspicion_score =
      round2 (min ((if a ∈ cm then (50 : ℚ) else 0) + smurf_bonus g sm a +
        (if a ∈ sh then (20 : ℚ) else 0) +
        (if has_high_velocity a g then (10 : ℚ) else 0) + 20 +
        (if 3 ≤ (flags_pre g cm sm sh a).length then (10 : ℚ) else 0)) 100) := by
  have hb : has_below_threshold_txs a g = true := by
    unfold has_below_threshold_txs
    dsimp only
    have hne : ¬ ((adj g a ++ radj g a).isEmpty = true) := by
      intro habs
      rw [List.isEmpty_iff] at habs
      rw [habs] at h5
      simp at h5
    rw [if_neg hne, Bool.and_eq_true, decide_eq_true_eq, decide_eq_true_eq]
    exact ⟨hratio, h5⟩
  have hflag : "below_threshold_structuring" ∈ flags_all g cm sm sh a := by
    unfold flags_all flags_pre
    rw [hb]
    simp
  have hscore : score_value g cm sm sh a =
      round2 (min ((if a ∈ cm then (50 : ℚ) else 0) + smurf_bonus g sm a +
        (if a ∈ sh then (20 : ℚ) else 0) +
        (if has_high_velocity a g then (10 : ℚ) else 0) + 20 +
        (if 3 ≤ (flags_pre g cm sm sh a).length then (10 : ℚ) else 0)) 100) := by
    unfold score_value score_pre
    rw [hb]
    simp
  refine ⟨?_, hflag, hscore⟩
  unfold score_accounts score_accounts_with
  exact List.mem_map.mpr ⟨a, hmem, rfl⟩

/-- Witness for the amended C7: account 1 of the `c8_txs` input, passed as
a cycle member, has five adjacent edges all below the threshold. -/
theorem C7_witness :
    (1, score_one (build_graph c8_txs) [1] [] [] [] 1) ∈
        score_accounts (build_graph c8_txs) [1] [] [] [] ∧
    "below_threshold_structuring" ∈
      (score_one (build_graph c8_txs) [1] [] [] [] 1).flags ∧
    (score_one (build_graph c8_txs) [1] [] [] [] 1).suspicion_score =
      round2 (min ((if (1 : Node) ∈ [(1 : Node)] then (50 : ℚ) else 0) +
        smurf_bonus (build_graph c8_txs) [] 1 +
        (if (1 : Node) ∈ ([] : List Node) then (20 : ℚ) else 0) +
        (if has_high_velocity 1 (build_graph c8_txs) then (10 : ℚ) else 0) + 20 +
        (if 3 ≤ (flags_pre (build_graph c8_txs) [1] [] [] 1).length then
          (10 : ℚ) else 0)) 100) :=
  C7_below_threshold_strict (build_graph c8_txs) [1] [] [] [] 1
    (by decide) (by with_unfolding_all decide) (by with_unfolding_all decide)

/-- C8, amended: with input, configuration and set-iteration order all
fixed, the pipeline is a function; across different iteration orders of the
flagged set the suspicious-account list is preserved as a multiset (it is a
permutation), though not necessarily byte-identical (ties in the stable
score sort follow the iteration order; the ring list does not depend on the
iteration order at all). -/
theorem C8_susp_perm_invariance (txs : List Edge) (o1 o2 : List Node)
    (h : List.Perm o1 o2) :
    List.Perm (pipeline_suspicious txs o1) (pipeline_suspicious txs o2) := by
  unfold pipeline_suspicious suspicious_sorted filter_false_positives
    score_accounts_with
  dsimp only
  refine (ssort_perm _ _).trans (List.Perm.trans ?_ (ssort_perm _ _).symm)
  exact List.Perm.filter _ (h.map _)

/-- Witness for the amended C8 at the tied-scores input. -/
theorem C8_witness :
    List.Perm (pipeline_suspicious c8_txs [1, 2])
      (pipeline_suspicious c8_txs [2, 1]) :=
  C8_susp_perm_invariance c8_txs [1, 2] [2, 1] (by decide)

/-! ### Claim theorems: concrete scenarios -/

/-- C2: on Scenario A (`T1: A→B 100 @0h`, `T2: B→C 100 @1h`,
`T3: C→A 100 @2h`) the cycle detector returns exactly one ring, with
members `[A, B, C]` starting at the smallest member, `cycle_length = 3`,
`total_flow = 300`, `transaction_count = 3`, and `risk_score ≥ 70`. -/
theorem C2_scenarioA_cycle :
    detect_cycles (build_graph scenarioA_txs) 50 =
      [{ members := [0, 1, 2], total_flow := 300, transaction_count := 3,
         risk_score := 70, cycle_length := 3 }] ∧
    (70 : ℚ) ≤ ((detect_cycles (build_graph scenarioA_txs) 50).headD
      default).risk_score := by
  with_unfolding_all decide

/-- C3, counterexample: on the Scenario D chain `A→B→C→D` the shell
detector does **not** flag `B` (account 1), contrary to the claim. -/
theorem C3_counterexample :
    1 ∉ detect_shell_accounts (build_graph scenarioD_txs) := by
  with_unfolding_all decide

/-- C3, amended: on the Scenario D chain the shell detector flags no
account at all; the chain test fails for `B` and `C` because the longest
directed path from each node's direct sender back to the node has length 1,
below `MIN_CHAIN_LENGTH = 3` (so `A` and `D` are likewise unflagged). -/
theorem C3_amended_shell_scenarioD :
    detect_shell_accounts (build_graph scenarioD_txs) = [] ∧
    is_in_chain 1 (build_graph scenarioD_txs) = false ∧
    is_in_chain 2 (build_graph scenarioD_txs) = false ∧
    dfs_chain_length (build_graph scenarioD_txs) 1 12 0 [] 0 = 1 ∧
    dfs_chain_length (build_graph scenarioD_txs) 2 12 1 [] 0 = 1 := by
  with_unfolding_all decide

set_option maxRecDepth 20000 in
/-- C5, counterexample: on a 38-node strongly connected input the per-SCC
cycle cap of 100 interrupts the DFS mid-descent, and the interrupted
enumeration records the stale path `[4, 11, 0, 6]` as a ring: its first
member 4 is not its smallest member 0, so the returned ring is not
rotation-canonical. -/
theorem C5_counterexample :
    ({ members := [4, 11, 0, 6], total_flow := 300, transaction_count := 3,
       risk_score := 80, cycle_length := 4 } : Ring) ∈
        detect_cycles (build_graph c5_txs) 50 ∧
    ¬ ([4, 11, 0, 6].headD 0 = (([4, 11, 0, 6] : List Node).min?).getD 0) := by
  with_unfolding_all decide

/-- C7, counterexample: account 100 has exactly ten adjacent edges of which
exactly seven (70%, i.e. *at least* 70%) are below `SMURFING_THRESHOLD`,
yet the scorer emits no `below_threshold_structuring` flag and adds no 20:
its score stays at the 50 of `cycle_member` (the code requires *strictly
more* than 70%). -/
theorem C7_counterexample :
    (adj (build_graph c7_txs) 100 ++ radj (build_graph c7_txs) 100).length = 10 ∧
    (adj (build_graph c7_txs) 100 ++ radj (build_graph c7_txs) 100).countP
      (fun e => decide (e.amount < SMURFING_THRESHOLD)) = 7 ∧
    100 ∈ all_flagged [100] [] [] ∧
    "below_threshold_structuring" ∉
      (score_one (build_graph c7_txs) [100] [] [] [] 100).flags ∧
    (score_one (build_graph c7_txs) [100] [] [] [] 100).suspicion_score = 50 := by
  with_unfolding_all decide

/-- C8, counterexample: on an input with two tied fan-out smurfing accounts
(1 and 2, both scoring 50), the flagged set is `{1, 2}` and the two
admissible set-iteration orders produce different suspicious-account lists,
so the pipeline's list output is not a function of (input, configuration)
alone. -/
theorem C8_counterexample :
    List.Perm [1, 2] ([2, 1] : List Node) ∧
    all_flagged (rings_members (detect_cycles (build_graph c8_txs) 50))
      (detect_smurfing (build_graph c8_txs))
      (detect_shell_accounts (build_graph c8_txs)) = [1, 2] ∧
    pipeline_suspicious c8_txs [1, 2] ≠ pipeline_suspicious c8_txs [2, 1] := by
  with_unfolding_all decide

/-- C9: on Scenario B (account `X` = 0 sending six edges of 9000 within ten
hours) under the conservative preset, `X`'s out-degree 6 is below
`MIN_FAN_DEGREE = 7` and the enhanced pipeline's retained
suspicious-account list does not contain `X`. -/
theorem C9_scenarioF_conservative :
    ((statsOf (build_graph scenarioB_txs) 0).getD {}).out_degree = 6 ∧
    6 < conservative.MIN_FAN_DEGREE ∧
    0 ∉ (enhanced_pipeline_filtered conservative (fun _ => false)
      (fun _ => false) scenarioB_txs).map Prod.fst := by
  with_unfolding_all decide

end Rift
